import Mathlib

/-!
Verification development for the BIM model analysis tool
(`streamlit_app.py`, class `BIMParser`).

The parsing core is shallowly embedded here:

* `JVal` models a decoded JSON document (Python's `json.loads` output).
  The decode step itself is standard-library behaviour, so `parse_file`
  below takes an `Option JVal`: `none` stands for an input text that does
  not decode as JSON (in which case `json.loads` raises and the code
  returns a failure result).  JSON numbers are modelled as integers; no
  claim depends on numeric values beyond truthiness and length.
* Python operations that can raise (`x in v` on a non-iterable,
  subscripting a non-container, `str.join` over non-strings, `.get` on a
  non-dict, `len` of an unsized value) are modelled in `Except String`,
  mirroring the fact that `BIMParser.parse_file` catches every exception
  at its outermost boundary and converts it into a failure result.
  Fields read with `.get(...)` and then used as text (names, data types,
  expressions) are modelled for string values only; a present
  non-string value is mapped to an error, which narrows the modelled
  domain but affects no claim.
* Python `dict`s produced by `json.loads` have unique keys, so object
  lookup takes the first binding; `set`s are modelled as
  insertion-ordered duplicate-free lists, a deterministic stand-in for
  Python's unspecified set iteration order (every property proved about
  them is membership-based).
* The `re` patterns of the source are transliterated one for one into a
  small backtracking regular-expression engine (`Rx`, `reM`) with
  Python's semantics: leftmost match, left-biased alternation, greedy
  quantifiers with backtracking.
-/

/-- A decoded JSON value, as produced by `json.loads`. -/
inductive JVal where
  | null : JVal
  | bool (b : Bool) : JVal
  | num (n : Int) : JVal
  | str (s : String) : JVal
  | arr (xs : List JVal) : JVal
  | obj (fs : List (String × JVal)) : JVal

/-- Named characters, used where a quote or brace character is needed. -/
def chDq : Char := Char.ofNat 34

def chSq : Char := Char.ofNat 39

def chOb : Char := Char.ofNat 123

def chCb : Char := Char.ofNat 125

/-- Lookup of a key in a decoded JSON object (`json.loads` dictionaries
have unique keys, so the first binding is the binding). -/
def getKey (fs : List (String × JVal)) (k : String) : Option JVal :=
  (fs.find? (fun p => p.1 = k)).map (fun p => p.2)

/-- Python substring test `k in t` on strings (`k = ""` is contained in
every string). -/
def strContains (t k : String) : Bool :=
  (t.data.tails).any (fun suf => k.data.isPrefixOf suf)

/-- Python membership `k in v` for a string `k`: key membership for a
dict, element equality for a list, substring test for a string, and a
`TypeError` for non-iterable values. -/
def pyContains (k : String) : JVal → Except String Bool
  | .obj fs => .ok (fs.any (fun p => p.1 = k))
  | .arr xs => .ok (xs.any (fun x => match x with
      | .str s => s = k
      | _ => false))
  | .str t => .ok (strContains t k)
  | _ => .error "TypeError: argument is not iterable"

/-- Python subscription `v[k]` with a string key: dict lookup (with
`KeyError` on a missing key) and a `TypeError` on every other value. -/
def pyIndex (v : JVal) (k : String) : Except String JVal :=
  match v with
  | .obj fs =>
      match getKey fs k with
      | some x => .ok x
      | none => .error ("KeyError: " ++ k)
  | _ => .error "TypeError: value is not subscriptable by a string"

/-- Python `v.get(k, d)`: only dicts have `.get`; anything else raises
`AttributeError`. -/
def pyGetD (v : JVal) (k : String) (d : JVal) : Except String JVal :=
  match v with
  | .obj fs => .ok ((getKey fs k).getD d)
  | _ => .error "AttributeError: value has no attribute get"

/-- Python truthiness of a decoded value. -/
def pyTruthy : JVal → Bool
  | .null => false
  | .bool b => b
  | .num n => n ≠ 0
  | .str s => !s.isEmpty
  | .arr xs => !xs.isEmpty
  | .obj fs => !fs.isEmpty

/-- Python iteration over a value: a list yields its elements, a string
its characters, a dict its keys; other values raise `TypeError`. -/
def pySeq : JVal → Except String (List JVal)
  | .arr xs => .ok xs
  | .str s => .ok (s.data.map (fun c => .str (String.mk [c])))
  | .obj fs => .ok (fs.map (fun p => .str p.1))
  | _ => .error "TypeError: value is not iterable"

/-- Python `len(v)` for sized values; `TypeError` otherwise. -/
def pyLen : JVal → Except String Nat
  | .arr xs => .ok xs.length
  | .str s => .ok s.data.length
  | .obj fs => .ok fs.length
  | _ => .error "TypeError: value has no len"

/-- A field value that the modelled fragment requires to be a string
(names, types, expressions read from the document). -/
def asStr : JVal → Except String String
  | .str s => .ok s
  | _ => .error "modelled only for string-valued fields"

/-- Python `sep.join(xs)`: every element must be a string. -/
def pyJoin (sep : String) : List JVal → Except String String
  | [] => .ok ""
  | [.str s] => .ok s
  | .str s :: x :: rest => do
      let r ← pyJoin sep (x :: rest)
      return s ++ sep ++ r
  | _ => .error "TypeError: sequence item is not a str instance"

/-!  `_locate_model` (lines 72-95): search the decoded structure for the
model object.  A dict yields its `model` member when that is a dict,
else its `SemanticModel` member when that is a dict, else itself when it
has a list-valued `tables` member, else the first model found by
recursing into its dict- or list-valued members in order; a list
recurses into its dict or list items in order. -/

mutual

def locateModel : JVal → Option JVal
  | .obj fs =>
      match getKey fs "model" with
      | some (.obj mfs) => some (.obj mfs)
      | _ =>
        match getKey fs "SemanticModel" with
        | some (.obj mfs) => some (.obj mfs)
        | _ =>
          match getKey fs "tables" with
          | some (.arr _) => some (.obj fs)
          | _ => locateFields fs
  | .arr xs => locateArr xs
  | _ => none

def locateFields : List (String × JVal) → Option JVal
  | [] => none
  | (_, v) :: rest =>
      match v with
      | .obj gs =>
          match locateModel (.obj gs) with
          | some m => some m
          | none => locateFields rest
      | .arr ys =>
          match locateModel (.arr ys) with
          | some m => some m
          | none => locateFields rest
      | _ => locateFields rest

def locateArr : List JVal → Option JVal
  | [] => none
  | v :: rest =>
      match v with
      | .obj gs =>
          match locateModel (.obj gs) with
          | some m => some m
          | none => locateArr rest
      | .arr ys =>
          match locateModel (.arr ys) with
          | some m => some m
          | none => locateArr rest
      | _ => locateArr rest

end

/-!  A small backtracking regular-expression engine with Python `re`
semantics (leftmost match, left-biased alternation, greedy quantifiers
with backtracking, numbered capture groups keeping the last capture).
Each pattern of the source is transliterated into an `Rx` term below. -/

/-- Regular-expression abstract syntax. -/
inductive Rx where
  | eps : Rx
  | cls (p : Char → Bool) : Rx
  | seq (a b : Rx) : Rx
  | alt (a b : Rx) : Rx
  | star (a : Rx) : Rx
  | grp (n : Nat) (a : Rx) : Rx

/-- A literal character. -/
def rxLit (c : Char) : Rx := .cls (fun x => x = c)

/-- A literal string. -/
def rxLits (s : String) : Rx := s.data.foldr (fun c r => .seq (rxLit c) r) .eps

/-- `r+` as `r r*`. -/
def rxPlus (a : Rx) : Rx := .seq a (.star a)

/-- Captured groups: group number paired with the captured characters. -/
abbrev RxGroups := List (Nat × List Char)

/-- Backtracking matcher in continuation style.  `reM r fuel s g k`
tries to match `r` at the start of `s` with groups `g`, calling the
continuation `k` on the rest and the updated groups; on failure of a
branch it backtracks.  `star` is greedy (longer matches first) and an
iteration matching the empty string ends the loop, as in Python.  The
fuel only bounds the recursion; `rxFuel` below is always sufficient for
the patterns used here. -/
def reM (r : Rx) (fuel : Nat) (s : List Char) (g : RxGroups)
    (k : List Char → RxGroups → Option (RxGroups × List Char)) :
    Option (RxGroups × List Char) :=
  match fuel with
  | 0 => none
  | fuel + 1 =>
    match r with
    | .eps => k s g
    | .cls p =>
        match s with
        | [] => none
        | c :: rest => if p c then k rest g else none
    | .seq a b => reM a fuel s g (fun s1 g1 => reM b fuel s1 g1 k)
    | .alt a b =>
        match reM a fuel s g k with
        | some res => some res
        | none => reM b fuel s g k
    | .star a =>
        match reM a fuel s g (fun s1 g1 =>
            if s1.length < s.length then reM (.star a) fuel s1 g1 k else none) with
        | some res => some res
        | none => k s g
    | .grp n a => reM a fuel s g (fun s1 g1 => k s1 ((n, s.take (s.length - s1.length)) :: g1))

/-- Sufficient fuel for matching at one position of `s` with the
patterns of this file (their nesting depth is far below 600). -/
def rxFuel (s : List Char) : Nat := 4 * s.length + 600

/-- `re.search` from a given suffix: try to match at each position from
the left and return the groups of the first (leftmost) match together
with the rest of the input after the match. -/
def reSearchChars (r : Rx) : List Char → Option (RxGroups × List Char)
  | [] => reM r (rxFuel []) [] [] (fun rest g => some (g, rest))
  | c :: t =>
      match reM r (rxFuel (c :: t)) (c :: t) [] (fun rest g => some (g, rest)) with
      | some res => some res
      | none => reSearchChars r t

/-- The text captured by group `n` (`""` when the group did not take
part in the match, as in Python's `findall` tuples). -/
def grpGet (g : RxGroups) (n : Nat) : String :=
  match g.find? (fun p => p.1 = n) with
  | some p => String.mk p.2
  | none => ""

/-- `re.findall`: all non-overlapping matches from the left, each
continuing after the end of the previous match.  Every pattern in this
file consumes at least one character per match, so the guard below
never cuts a scan short. -/
def reFindAllAux (r : Rx) : Nat → List Char → List RxGroups
  | 0, _ => []
  | fuel + 1, s =>
      match reSearchChars r s with
      | none => []
      | some (g, rest) =>
          if rest.length < s.length then g :: reFindAllAux r fuel rest
          else [g]

def reFindAllChars (r : Rx) (s : List Char) : List RxGroups :=
  reFindAllAux r (s.length + 1) s

/-- `re.search` returning group 1 of the first match. -/
def reSearch1 (r : Rx) (s : String) : Option String :=
  (reSearchChars r s.data).map (fun res => grpGet res.1 1)

/-- `re.search` returning groups 1 and 2 of the first match. -/
def reSearch2 (r : Rx) (s : String) : Option (String × String) :=
  (reSearchChars r s.data).map (fun res => (grpGet res.1 1, grpGet res.1 2))

/-- `re.findall` for a one-group pattern. -/
def reFindAll1 (r : Rx) (s : String) : List String :=
  (reFindAllChars r s.data).map (fun g => grpGet g 1)

/-- `re.findall` for a two-group pattern (a list of tuples in Python). -/
def reFindAll2 (r : Rx) (s : String) : List (String × String) :=
  (reFindAllChars r s.data).map (fun g => (grpGet g 1, grpGet g 2))

/-!  Character classes used by the patterns. -/

/-- Python `\s` on the ASCII fragment. -/
def pySpaceB (c : Char) : Bool :=
  c = ' ' || c = Char.ofNat 9 || c = Char.ofNat 10 || c = Char.ofNat 13 ||
    c = Char.ofNat 11 || c = Char.ofNat 12

def identStartB (c : Char) : Bool := c.isAlpha || c = '_'

def identCharB (c : Char) : Bool := c.isAlphanum || c = '_'

def notDq (c : Char) : Bool := c ≠ chDq

def notSq (c : Char) : Bool := c ≠ chSq

def notSemi (c : Char) : Bool := c ≠ ';'

def notComma (c : Char) : Bool := c ≠ ','

def notCb (c : Char) : Bool := c ≠ chCb

def notRb (c : Char) : Bool := c ≠ ']'

/-- A character matched case-insensitively (for `re.IGNORECASE`). -/
def rxCI (lower upper : Char) : Rx := .cls (fun c => c = lower || c = upper)

/-!  The `re` patterns of the source, transliterated term by term. -/

/-- `Item="([^"]+)"` (line 182). -/
def itemRx : Rx :=
  .seq (rxLits "Item=") (.seq (rxLit chDq) (.seq (.grp 1 (rxPlus (.cls notDq))) (rxLit chDq)))

/-- `FROM\s+([a-zA-Z_][a-zA-Z0-9_]*)` with `re.IGNORECASE` (line 188). -/
def fromRx : Rx :=
  .seq (rxCI 'f' 'F') (.seq (rxCI 'r' 'R') (.seq (rxCI 'o' 'O') (.seq (rxCI 'm' 'M')
    (.seq (rxPlus (.cls pySpaceB)) (.grp 1 (.seq (.cls identStartB) (.star (.cls identCharB))))))))

/-- `Value\.NativeQuery\(#"([^;]+);([^"]+)"` (line 204). -/
def nativeQueryRx : Rx :=
  .seq (rxLits "Value.NativeQuery(#") (.seq (rxLit chDq)
    (.seq (.grp 1 (rxPlus (.cls notSemi))) (.seq (rxLit ';')
      (.seq (.grp 2 (rxPlus (.cls notDq))) (rxLit chDq)))))

/-- `Source\s*=\s*#"([^;]+);([^"]+)"` (line 213). -/
def sourceAssignRx : Rx :=
  .seq (rxLits "Source") (.seq (.star (.cls pySpaceB)) (.seq (rxLit '=')
    (.seq (.star (.cls pySpaceB)) (.seq (rxLit '#') (.seq (rxLit chDq)
      (.seq (.grp 1 (rxPlus (.cls notSemi))) (.seq (rxLit ';')
        (.seq (.grp 2 (rxPlus (.cls notDq))) (rxLit chDq)))))))))

/-- `Schema="([^"]+)"` (line 221). -/
def schemaRx : Rx :=
  .seq (rxLits "Schema=") (.seq (rxLit chDq) (.seq (.grp 1 (rxPlus (.cls notDq))) (rxLit chDq)))

/-- The braced capture `\{[^}]*(?:\{[^}]*}[^}]*)*}` inside the
`Table.RenameColumns` pattern (line 322). -/
def bracedRx : Rx :=
  .seq (rxLit chOb) (.seq (.star (.cls notCb))
    (.seq (.star (.seq (rxLit chOb) (.seq (.star (.cls notCb))
        (.seq (rxLit chCb) (.star (.cls notCb))))))
      (rxLit chCb)))

/-- `Table\.RenameColumns\([^,]+,\s*(\{[^}]*(?:\{[^}]*}[^}]*)*})\)` (line 322). -/
def renameCallRx : Rx :=
  .seq (rxLits "Table.RenameColumns(") (.seq (rxPlus (.cls notComma)) (.seq (rxLit ',')
    (.seq (.star (.cls pySpaceB)) (.seq (.grp 1 bracedRx) (rxLit ')')))))

/-- `\{\s*"([^"]+)"\s*,\s*"([^"]+)"\s*}` (line 327). -/
def quotedPairRx : Rx :=
  .seq (rxLit chOb) (.seq (.star (.cls pySpaceB)) (.seq (rxLit chDq)
    (.seq (.grp 1 (rxPlus (.cls notDq))) (.seq (rxLit chDq) (.seq (.star (.cls pySpaceB))
      (.seq (rxLit ',') (.seq (.star (.cls pySpaceB)) (.seq (rxLit chDq)
        (.seq (.grp 2 (rxPlus (.cls notDq))) (.seq (rxLit chDq)
          (.seq (.star (.cls pySpaceB)) (rxLit chCb))))))))))))

/-- `\{\s*([a-zA-Z_][a-zA-Z0-9_]*)\s*,\s*"([^"]+)"\s*}` (line 335). -/
def barePairRx : Rx :=
  .seq (rxLit chOb) (.seq (.star (.cls pySpaceB))
    (.seq (.grp 1 (.seq (.cls identStartB) (.star (.cls identCharB))))
      (.seq (.star (.cls pySpaceB)) (.seq (rxLit ',') (.seq (.star (.cls pySpaceB))
        (.seq (rxLit chDq) (.seq (.grp 2 (rxPlus (.cls notDq)))
          (.seq (rxLit chDq) (.seq (.star (.cls pySpaceB)) (rxLit chCb))))))))))

/-- `\[([^\]]+)\]` (lines 425 and 593). -/
def bracketRx : Rx := .seq (rxLit '[') (.seq (.grp 1 (rxPlus (.cls notRb))) (rxLit ']'))

/-- `'([^']+)'` (line 484). -/
def quoteTokRx : Rx :=
  .seq (rxLit chSq) (.seq (.grp 1 (rxPlus (.cls notSq))) (rxLit chSq))

/-- The uncaptured `'[^']+'` prefix of the involved-column pattern. -/
def qtNoCapRx : Rx := .seq (rxLit chSq) (.seq (rxPlus (.cls notSq)) (rxLit chSq))

/-- `'[^']+'\['([^']+)'\]|'[^']+'\[([^\]]+)\]` (line 493). -/
def involvedColRx : Rx :=
  .alt
    (.seq qtNoCapRx (.seq (rxLit '[') (.seq (rxLit chSq)
      (.seq (.grp 1 (rxPlus (.cls notSq))) (.seq (rxLit chSq) (rxLit ']'))))))
    (.seq qtNoCapRx (.seq (rxLit '[') (.seq (.grp 2 (rxPlus (.cls notRb))) (rxLit ']'))))

/-- `'<table>'\[([^\]]+)\]` with the table name escaped by `re.escape`
(line 458): the name is matched literally. -/
def tableQualRx (t : String) : Rx :=
  .seq (rxLit chSq) (.seq (rxLits t) (.seq (rxLit chSq)
    (.seq (rxLit '[') (.seq (.grp 1 (rxPlus (.cls notRb))) (rxLit ']')))))

/-!  Set and dict helpers: Python sets are modelled as insertion-ordered
duplicate-free lists, Python dicts as association lists with
assignment-overwrite semantics. -/

/-- Add an element to a set unless already present. -/
def insertNew (l : List String) (x : String) : List String :=
  if x ∈ l then l else l ++ [x]

/-- `s.update(new)` on a set. -/
def unionInto (l new : List String) : List String := new.foldl insertNew l

/-- `list(set(l))`, with first-occurrence order standing in for Python's
unspecified set order. -/
def dedupFirst (l : List String) : List String := unionInto [] l

/-- `d[k] = v` on a dict. -/
def dictInsert (k v : String) (d : List (String × String)) : List (String × String) :=
  if d.any (fun p => p.1 = k) then d.map (fun p => if p.1 = k then (k, v) else p)
  else d ++ [(k, v)]

/-- Dict lookup (keys are unique by construction). -/
def dictLookup (d : List (String × String)) (k : String) : Option String :=
  (d.find? (fun p => p.1 = k)).map (fun p => p.2)

/-!  The extraction helpers of `BIMParser`. -/

/-- `_extract_source_table` (lines 174-193): a non-list expression is
the sentinel at once; a list is newline-joined and matched against the
`Item="..."` pattern, then the `FROM <identifier>` pattern, with the
sentinel `"DAX创建"` as fallback. -/
def extract_source_table (expression : JVal) : Except String String :=
  match expression with
  | .arr xs => do
      let text ← pyJoin "\n" xs
      match reSearch1 itemRx text with
      | some name => pure name
      | none =>
        match reSearch1 fromRx text with
        | some name => pure name
        | none => pure "DAX创建"
  | _ => .ok "DAX创建"

/-- `_extract_connection_info` (lines 195-229): a non-list expression
yields empty strings; a list is newline-joined and matched against the
native-query pattern, then the `Source = #"..."` pattern, then the
`Schema="..."` pattern (database name only). -/
def extract_connection_info (expression : JVal) : Except String (String × String) :=
  match expression with
  | .arr xs => do
      let text ← pyJoin "\n" xs
      match reSearch2 nativeQueryRx text with
      | some p => pure p
      | none =>
        match reSearch2 sourceAssignRx text with
        | some p => pure p
        | none =>
          match reSearch1 schemaRx text with
          | some db => pure ("", db)
          | none => pure ("", "")
  | _ => .ok ("", "")

/-- `_extract_rename_mappings_from_m` (lines 309-339): a list expression
is space-joined; each `Table.RenameColumns` call found contributes its
quoted mapping pairs as a new-name → old-name dict, and only when no
quoted pair was found anywhere are the bare-identifier pairs tried. -/
def extract_rename_mappings (expression : JVal) : Except String (List (String × String)) := do
  let text ← match expression with
    | .arr xs => pyJoin " " xs
    | .str s => pure s
    | _ => Except.error "TypeError: expected string or bytes-like object"
  let calls := reFindAll1 renameCallRx text
  let withQuoted := calls.foldl (fun d call =>
      (reFindAll2 quotedPairRx call).foldl (fun d pr => dictInsert pr.2 pr.1 d) d) []
  if withQuoted.isEmpty then
    pure (calls.foldl (fun d call =>
      (reFindAll2 barePairRx call).foldl (fun d pr => dictInsert pr.2 pr.1 d) d) [])
  else pure withQuoted

/-- `_extract_involved_tables` (lines 480-487): every single-quoted
token, deduplicated. -/
def extract_involved_tables (expression : String) : List String :=
  dedupFirst (reFindAll1 quoteTokRx expression)

/-- `_extract_involved_columns` (lines 489-500): bracketed tokens
governed by a quoted-table qualifier, taking the non-empty group of
each alternation match, deduplicated. -/
def extract_involved_columns (expression : String) : List String :=
  dedupFirst ((reFindAll2 involvedColRx expression).foldr
    (fun pr acc =>
      (if pr.1 ≠ "" then [pr.1] else []) ++ (if pr.2 ≠ "" then [pr.2] else []) ++ acc) [])

/-- The bracketed-token scan `re.findall(r"\[([^\]]+)\]", ...)` used for
measure references (lines 425-426 and 593-594); not deduplicated. -/
def measureRefTokens (expression : String) : List String :=
  reFindAll1 bracketRx expression

/-!  Output record shapes.  Field names map one for one to the Chinese
dictionary keys of the source (`表名`, `源表名`, ...). -/

/-- One record of `tables_info` (lines 168-172): 表名, 源表名, 表分区数量. -/
structure TableRec where
  name : String
  sourceTable : String
  partitionCount : Nat
deriving DecidableEq, Repr

/-- One record of `columns_info` (lines 269-275): 表名, 源表名, 列名,
源列名, 字段格式 (the latter holds the `dataType`). -/
structure ColumnRec where
  table : String
  sourceTable : String
  name : String
  sourceColumn : String
  dataType : String
deriving DecidableEq, Repr

/-- One record of `measures_info` (lines 471-478), with the 度量值引用
field attached by the final resolution pass (line 604). -/
structure MeasureRec where
  name : String
  expr : String
  fmt : String
  folder : String
  involvedTables : String
  involvedColumns : String
  refs : String
deriving DecidableEq, Repr

/-- One record of `relationships_info` (lines 570-578). -/
structure RelRec where
  fromTable : String
  fromColumn : String
  toTable : String
  toColumn : String
  cardinality : String
  direction : String
  active : String
deriving DecidableEq, Repr

/-- One record of `overview_info` (lines 667-676). -/
structure OverviewRec where
  name : String
  sourceTable : String
  columnCount : Nat
  measureCount : Nat
  partitionCount : Nat
  address : String
  database : String
  protocol : String
deriving DecidableEq, Repr

/-- An intermediate `all_measures` entry (lines 398-404). -/
structure MeasurePre where
  name : String
  expr : String
  fmt : String
  folder : String
  table : String
deriving DecidableEq, Repr

/-- The fixed system-table denylist (line 143). -/
def system_tables : List String := ["User_用户权限表"]

/-- The per-partition test `"source" in partition and "expression" in
partition["source"]` (line 158), yielding the expression when present. -/
def partitionExpr (p : JVal) : Except String (Option JVal) := do
  let hasSource ← pyContains "source" p
  if hasSource then do
    let src ← pyIndex p "source"
    let hasExpr ← pyContains "expression" src
    if hasExpr then do
      let e ← pyIndex src "expression"
      return some e
    else return none
  else return none

/-- The partition loop of the source-table scan (lines 157-161): the
FIRST partition carrying `source.expression` wins and the loop breaks,
whether or not the expression then yields a pattern match. -/
def findPartitionExpr : List JVal → Except String (Option JVal)
  | [] => .ok none
  | p :: rest => do
      match ← partitionExpr p with
      | some e => return some e
      | none => findPartitionExpr rest

/-- The repeated source-table scan over a table's partitions (lines
156-161, repeated at 243-248, 357-362, 516-521, 652-662). -/
def tableSourceTable (table : JVal) : Except String String := do
  let hasP ← pyContains "partitions" table
  if hasP then do
    let ps ← pyIndex table "partitions"
    if pyTruthy ps then do
      match ← findPartitionExpr (← pySeq ps) with
      | some e => extract_source_table e
      | none => return "DAX创建"
    else return "DAX创建"
  else return "DAX创建"

/-- The shared guard `"model" in raw and "tables" in raw["model"]`
(lines 133, 233, 279, 343): the table list when both hold. -/
def modelTables (rawData : JVal) : Except String (Option (List JVal)) := do
  let hasModel ← pyContains "model" rawData
  if !hasModel then return none
  else do
    let model ← pyIndex rawData "model"
    let hasTables ← pyContains "tables" model
    if !hasTables then return none
    else do
      let tables ← pySeq (← pyIndex model "tables")
      return some tables

/-- The body of the `_parse_tables` loop for one table (lines 145-172);
`none` when the table name is on the system-table denylist. -/
def tableRecOf (table : JVal) : Except String (Option TableRec) := do
  let name ← asStr (← pyGetD table "name" (.str ""))
  if name ∈ system_tables then return none
  else do
    let sourceTable ← tableSourceTable table
    let hasP ← pyContains "partitions" table
    if hasP then do
      let ps ← pyIndex table "partitions"
      let partitionCount ← pyLen ps
      return some { name := name, sourceTable := sourceTable, partitionCount := partitionCount }
    else
      return some { name := name, sourceTable := sourceTable, partitionCount := 0 }

/-- `_parse_tables` (lines 131-172). -/
def parse_tables (rawData : JVal) : Except String (List TableRec) := do
  match ← modelTables rawData with
  | none => return []
  | some tables =>
    tables.foldlM (fun acc table => do
      match ← tableRecOf table with
      | some r => pure (acc ++ [r])
      | none => pure acc) []

/-- The table finder of `_extract_column_source_from_m_function`
(lines 285-289): the first table whose name matches. -/
def findTargetTable : List JVal → String → Except String (Option JVal)
  | [], _ => .ok none
  | t :: rest, name => do
      let n ← asStr (← pyGetD t "name" (.str ""))
      if n = name then return some t else findTargetTable rest name

/-- The partition loop of `_extract_column_source_from_m_function`
(lines 295-305): the first partition whose rename mapping contains the
column wins; partitions whose mapping lacks the column do not block
later partitions. -/
def scanRenamePartitions (columnName : String) : List JVal → Except String String
  | [] => .ok columnName
  | p :: rest => do
      match ← partitionExpr p with
      | some e => do
          let mappings ← extract_rename_mappings e
          match dictLookup mappings columnName with
          | some src => return src
          | none => scanRenamePartitions columnName rest
      | none => scanRenamePartitions columnName rest

/-- `_extract_column_source_from_m_function` (lines 277-307). -/
def extract_column_source (rawData : JVal) (tableName columnName : String) :
    Except String String := do
  match ← modelTables rawData with
  | none => return columnName
  | some tables => do
      match ← findTargetTable tables tableName with
      | none => return columnName
      | some t =>
          if !(pyTruthy t) then return columnName
          else do
            let hasP ← pyContains "partitions" t
            if !hasP then return columnName
            else do
              let ps ← pySeq (← pyIndex t "partitions")
              scanRenamePartitions columnName ps

/-- The per-column body of `_parse_columns` (lines 251-275), including
the fallback chain rename-mapping → declared `sourceColumn` → own name.
(The unused `formatString` read of line 267 is omitted.) -/
def columnRecOf (rawData : JVal) (tableName sourceTable : String) (column : JVal) :
    Except String ColumnRec := do
  let columnName ← asStr (← pyGetD column "name" (.str ""))
  let dataType ← asStr (← pyGetD column "dataType" (.str ""))
  let fromM ← extract_column_source rawData tableName columnName
  let declared ←
    if fromM = columnName then asStr (← pyGetD column "sourceColumn" (.str ""))
    else pure fromM
  let sourceColumn := if declared = "" then columnName else declared
  return { table := tableName, sourceTable := sourceTable, name := columnName,
           sourceColumn := sourceColumn, dataType := dataType }

/-- The per-table body of the `_parse_columns` loop (lines 238-275). -/
def parse_columns_table (rawData : JVal) (acc : List ColumnRec) (table : JVal) :
    Except String (List ColumnRec) := do
  let tableName ← asStr (← pyGetD table "name" (.str ""))
  let sourceTable ← tableSourceTable table
  let hasC ← pyContains "columns" table
  if hasC then do
    let cols ← pySeq (← pyIndex table "columns")
    cols.foldlM (fun acc2 column => do
      let r ← columnRecOf rawData tableName sourceTable column
      pure (acc2 ++ [r])) acc
  else pure acc

/-- `_parse_columns` (lines 231-275); note the absence of any
system-table exclusion here. -/
def parse_columns (rawData : JVal) : Except String (List ColumnRec) := do
  match ← modelTables rawData with
  | none => return []
  | some tables => tables.foldlM (parse_columns_table rawData) []

/-- The table→source-table and table.column→source-column lookups, built
identically in `_parse_measures` (lines 347-377) and
`_parse_relationships` (lines 507-540); the source duplicates the code,
this development shares one definition. -/
def buildLookups (rawData : JVal) (tables : List JVal) :
    Except String (List (String × String) × List (String × String)) :=
  tables.foldlM (fun (acc : List (String × String) × List (String × String)) table => do
    let tableName ← asStr (← pyGetD table "name" (.str ""))
    let sourceTable ← tableSourceTable table
    let tlook := dictInsert tableName sourceTable acc.1
    let hasC ← pyContains "columns" table
    if hasC then do
      let cols ← pySeq (← pyIndex table "columns")
      let clook ← cols.foldlM (fun cl column => do
        let columnName ← asStr (← pyGetD column "name" (.str ""))
        let declared ← asStr (← pyGetD column "sourceColumn" (.str columnName))
        let fromM ← extract_column_source rawData tableName columnName
        let sourceColumn := if fromM ≠ columnName then fromM else declared
        pure (dictInsert (tableName ++ "." ++ columnName) sourceColumn cl)) acc.2
      pure (tlook, clook)
    else pure (tlook, acc.2)) ([], [])

/-- `expression.replace('\\"', '"')` (line 396): non-overlapping
left-to-right replacement of backslash-quote by quote. -/
def replaceEscQuoteChars : List Char → List Char
  | [] => []
  | [c] => [c]
  | c :: d :: rest =>
      if c = Char.ofNat 92 && d = chDq then chDq :: replaceEscQuoteChars rest
      else c :: replaceEscQuoteChars (d :: rest)

def replaceEscQuote (s : String) : String := String.mk (replaceEscQuoteChars s.data)

/-- Normalisation of one measure (lines 383-404): expression lists are
space-joined, escaped quotes are unescaped. -/
def measurePreOf (table : JVal) (measure : JVal) : Except String MeasurePre := do
  let name ← asStr (← pyGetD measure "name" (.str ""))
  let e0 ← pyGetD measure "expression" (.str "")
  let joined ← match e0 with
    | .arr xs => pyJoin " " xs
    | _ => asStr e0
  let fmt ← asStr (← pyGetD measure "formatString" (.str ""))
  let folder ← asStr (← pyGetD measure "displayFolder" (.str ""))
  let tableName ← asStr (← pyGetD table "name" (.str ""))
  let expr := replaceEscQuote joined
  return { name := name, expr := expr, fmt := fmt, folder := folder, table := tableName }

/-- The `all_measures` collection loop (lines 380-404). -/
def collect_measures (tables : List JVal) : Except String (List MeasurePre) :=
  tables.foldlM (fun acc table => do
    let hasM ← pyContains "measures" table
    if hasM then do
      let ms ← pySeq (← pyIndex table "measures")
      ms.foldlM (fun acc2 m => do
        let p ← measurePreOf table m
        pure (acc2 ++ [p])) acc
    else pure acc) []

/-- `measure_lookup` (line 407) restricted to the expressions, which is
all the recursive resolution reads: name → normalised expression, with
dict overwrite semantics for duplicate names. -/
def measureExprLookup (pres : List MeasurePre) : List (String × String) :=
  pres.foldl (fun d m => dictInsert m.name m.expr d) []

/-- The mutable state of the recursive closure (lines 419-421):
`all_tables`, `all_columns`, `visited_measures`. -/
structure ResolveState where
  tables : List String
  cols : List String
  visited : List String
deriving DecidableEq, Repr

/-- One pass of the loop `for match in matches:` (lines 428-439) over a
token list, threading the state; `nested` is the recursive re-entry
into a newly visited measure's expression. -/
def resolveToks (lookup : List (String × String))
    (nested : String → ResolveState → ResolveState) :
    List String → ResolveState → ResolveState
  | [], st => st
  | tok :: rest, st =>
      match dictLookup lookup tok with
      | some refExpr =>
          if tok ∈ st.visited then resolveToks lookup nested rest st
          else
            let st1 : ResolveState :=
              { tables := unionInto st.tables (extract_involved_tables refExpr)
                cols := unionInto st.cols (extract_involved_columns refExpr)
                visited := st.visited ++ [tok] }
            resolveToks lookup nested rest (nested refExpr st1)
      | none => resolveToks lookup nested rest st

/-- The recursive closure `resolve_measure_references` (lines 423-442):
scan the bracketed tokens of the expression in order; a token that
names a known measure and is not yet visited is marked visited, its
measure's direct tables and columns are unioned in, and its expression
is processed recursively.  The fuel bounds only the nesting depth of
expressions entered; `c5_resolution_terminates` below proves that any
fuel exceeding the number of unvisited known measure names yields the
same result, which is how the unbounded Python recursion terminates. -/
def resolveRefs (lookup : List (String × String)) : Nat → String → ResolveState → ResolveState
  | 0, _, st => st
  | fuel + 1, e, st => resolveToks lookup (resolveRefs lookup fuel) (measureRefTokens e) st

/-- Formatting of the involved tables (lines 445-448). -/
def formatTables (tlook : List (String × String)) (tabs : List String) : List String :=
  tabs.map (fun t => t ++ " (源表: " ++ ((dictLookup tlook t).getD "DAX创建") ++ ")")

/-- Formatting of the involved columns (lines 450-468): for each
involved table, those involved columns that are qualified by that table
in the top-level measure expression itself. -/
def formatColumns (clook : List (String × String)) (tabs cols : List String)
    (expression : String) : List String :=
  tabs.flatMap (fun t =>
    let qual := reFindAll1 (tableQualRx t) expression
    (cols.filter (fun c => c ∈ qual)).map
      (fun c => c ++ " (源列: " ++ ((dictLookup clook (t ++ "." ++ c)).getD c) ++ ")"))

/-- The per-measure body of `_parse_measures` (lines 410-478).  The fuel
`lookup.length + 1` is sufficient for the recursion (`c5` below). -/
def measureRecFor (tlook clook mlook : List (String × String)) (m : MeasurePre) : MeasureRec :=
  let st0 : ResolveState :=
    { tables := extract_involved_tables m.expr
      cols := extract_involved_columns m.expr
      visited := [] }
  let final := resolveRefs mlook (mlook.length + 1) m.expr st0
  { name := m.name
    expr := m.expr
    fmt := m.fmt
    folder := m.folder
    involvedTables := String.intercalate "\n" (formatTables tlook final.tables)
    involvedColumns := String.intercalate "\n" (formatColumns clook final.tables final.cols m.expr)
    refs := "" }

/-- `_parse_measures` (lines 341-478). -/
def parse_measures (rawData : JVal) : Except String (List MeasureRec) := do
  match ← modelTables rawData with
  | none => return []
  | some tables => do
      let looks ← buildLookups rawData tables
      let pres ← collect_measures tables
      let mlook := measureExprLookup pres
      return pres.map (measureRecFor looks.1 looks.2 mlook)

/-- The per-relationship body of `_parse_relationships` (lines 545-578). -/
def relRecOf (tlook clook : List (String × String)) (rel : JVal) : Except String RelRec := do
  let fromTable ← asStr (← pyGetD rel "fromTable" (.str ""))
  let fromColumn ← asStr (← pyGetD rel "fromColumn" (.str ""))
  let toTable ← asStr (← pyGetD rel "toTable" (.str ""))
  let toColumn ← asStr (← pyGetD rel "toColumn" (.str ""))
  let toCard ← pyGetD rel "toCardinality" (.str "")
  let cardinality := if pyTruthy toCard then "多对多" else "一对多"
  let cfb ← pyGetD rel "crossFilteringBehavior" (.str "")
  let direction := if pyTruthy cfb then "双向" else "单向"
  let isActive ← pyGetD rel "isActive" (.bool true)
  let active := match isActive with
    | .bool false => "未启用"
    | _ => "启用"
  let fromSrcT := (dictLookup tlook fromTable).getD "DAX创建"
  let toSrcT := (dictLookup tlook toTable).getD "DAX创建"
  let fromSrcC := (dictLookup clook (fromTable ++ "." ++ fromColumn)).getD fromColumn
  let toSrcC := (dictLookup clook (toTable ++ "." ++ toColumn)).getD toColumn
  return { fromTable := fromTable ++ "\n(源表: " ++ fromSrcT ++ ")"
           fromColumn := fromColumn ++ "\n(源列: " ++ fromSrcC ++ ")"
           toTable := toTable ++ "\n(源表: " ++ toSrcT ++ ")"
           toColumn := toColumn ++ "\n(源列: " ++ toSrcC ++ ")"
           cardinality := cardinality, direction := direction, active := active }

/-- `_parse_relationships` (lines 502-578).  Note that after the guard
the table list is read with a plain subscription (line 509), so a model
carrying relationships but no tables faults (and the fault becomes a
failure result at the boundary). -/
def parse_relationships (rawData : JVal) : Except String (List RelRec) := do
  let hasModel ← pyContains "model" rawData
  if !hasModel then return []
  else do
    let model ← pyIndex rawData "model"
    let hasR ← pyContains "relationships" model
    if !hasR then return []
    else do
      let tables ← pySeq (← pyIndex model "tables")
      let looks ← buildLookups rawData tables
      let rels ← pySeq (← pyIndex model "relationships")
      rels.foldlM (fun acc rel => do
        let r ← relRecOf looks.1 looks.2 rel
        pure (acc ++ [r])) []

/-- Counter dict for the overview (`table_measure_counts`). -/
def natDictInsert (k : String) (v : Nat) (d : List (String × Nat)) : List (String × Nat) :=
  if d.any (fun p => p.1 = k) then d.map (fun p => if p.1 = k then (k, v) else p)
  else d ++ [(k, v)]

def natDictBump (k : String) (d : List (String × Nat)) : List (String × Nat) :=
  d.map (fun p => if p.1 = k then (p.1, p.2 + 1) else p)

def natDictLookup (d : List (String × Nat)) (k : String) : Option Nat :=
  (d.find? (fun p => p.1 = k)).map (fun p => p.2)

/-- The per-table record of `_generate_overview` (lines 639-676). -/
def overviewRecOf (counts : List (String × Nat)) (table : JVal) : Except String OverviewRec := do
  let name ← asStr (← pyGetD table "name" (.str ""))
  let columnCount ← pyLen (← pyGetD table "columns" (.arr []))
  let partitionCount ← pyLen (← pyGetD table "partitions" (.arr []))
  let hasP ← pyContains "partitions" table
  let info ←
    if hasP then do
      let ps ← pyIndex table "partitions"
      if pyTruthy ps then do
        match ← findPartitionExpr (← pySeq ps) with
        | some e => do
            let s ← extract_source_table e
            let conn ← extract_connection_info e
            let proto :=
              if conn.1 ≠ "" && strContains conn.1 "/" then
                String.mk (conn.1.data.takeWhile (fun c => c ≠ '/'))
              else ""
            pure (s, conn.1, conn.2, proto)
        | none => pure ("DAX创建", "", "", "")
      else pure ("DAX创建", "", "", "")
    else pure ("DAX创建", "", "", "")
  let measureCount := (natDictLookup counts name).getD 0
  return { name := name, sourceTable := info.1, columnCount := columnCount,
           measureCount := measureCount, partitionCount := partitionCount,
           address := info.2.1, database := info.2.2.1, protocol := info.2.2.2 }

/-- `_generate_overview` (lines 608-676).  The measure-involvement
count uses each measure's direct (non-recursive) involved tables, with
no escape normalisation of the expression (lines 624-636). -/
def generate_overview (rawData : JVal) : Except String (List OverviewRec) := do
  let hasModel ← pyContains "model" rawData
  if !hasModel then return []
  else do
    let model ← pyIndex rawData "model"
    let tables ← pySeq (← pyGetD model "tables" (.arr []))
    let counts0 ← tables.foldlM (fun (d : List (String × Nat)) table => do
        let n ← asStr (← pyGetD table "name" (.str ""))
        pure (natDictInsert n 0 d)) []
    let counts ← tables.foldlM (fun (d : List (String × Nat)) table => do
        let hasM ← pyContains "measures" table
        if hasM then do
          let ms ← pySeq (← pyIndex table "measures")
          ms.foldlM (fun d2 measure => do
            let e0 ← pyGetD measure "expression" (.str "")
            let expr ← match e0 with
              | .arr xs => pyJoin " " xs
              | _ => asStr e0
            let involved := extract_involved_tables expr
            pure (involved.foldl (fun d3 t =>
              if d3.any (fun p => p.1 = t) then natDictBump t d3 else d3) d2)) d
        else pure d) counts0
    tables.foldlM (fun acc table => do
      let r ← overviewRecOf counts table
      pure (acc ++ [r])) []

/-- The per-record reference list of `_resolve_all_measure_references`
(lines 592-600): bracketed tokens of the normalised expression that are
known measure names, deduplicated in order of first occurrence.  There
is no exclusion of the record's own name. -/
def refListFor (names : List String) (expression : String) : List String :=
  (measureRefTokens expression).foldl (fun acc tok =>
    if tok ∈ names ∧ tok ∉ acc then acc ++ [tok] else acc) []

/-- `_resolve_all_measure_references` (lines 580-606): a final pass over
the produced measure records attaching the one-level reference list. -/
def resolve_all_measure_references (ms : List MeasureRec) : List MeasureRec :=
  let names := ms.map (fun m => m.name)
  ms.map (fun m =>
    let refs := refListFor names m.expr
    { m with refs := if refs.isEmpty then "" else String.intercalate "\n" refs })

/-- The raw-data normalisation of `parse_file` (lines 97-103): keep the
decoded document itself when no model was located, else wrap the
located model under a `model` key. -/
def rawDataOf (parsed : JVal) : JVal :=
  match locateModel parsed with
  | none => parsed
  | some m => .obj [("model", m)]

/-- The phase sequence of `parse_file` (lines 106-111); a fault in any
phase aborts the sequence with its message, as an exception would. -/
def runPhases (rawData : JVal) :
    Except String (List TableRec × List ColumnRec × List MeasureRec ×
      List RelRec × List OverviewRec) := do
  let t ← parse_tables rawData
  let c ← parse_columns rawData
  let m0 ← parse_measures rawData
  let r ← parse_relationships rawData
  let o ← generate_overview rawData
  let m := resolve_all_measure_references m0
  return (t, c, m, r, o)

/-- The result dict of `parse_file`: on success the five collections,
on failure only an error message. -/
inductive ParseResult where
  | success (tables : List TableRec) (columns : List ColumnRec)
      (measures : List MeasureRec) (relationships : List RelRec)
      (overview : List OverviewRec) : ParseResult
  | failure (error : String) : ParseResult
deriving DecidableEq, Repr

/-- `parse_file` (lines 53-129) after the decode step: `none` stands for
input text that does not decode as JSON (lines 65-69); any exception
raised during the phases is caught at the outermost boundary (lines
127-129) and converted into a failure result with the message. -/
def parse_file (decoded : Option JVal) : ParseResult :=
  match decoded with
  | none => .failure "无法解析为JSON"
  | some parsed =>
      match runPhases (rawDataOf parsed) with
      | .ok (t, c, m, r, o) => .success t c m r o
      | .error e => .failure e

/-!  ## Concrete documents used in counterexamples and witnesses -/

/-- The worked example of the specification: one table `Sales` with one
partition whose expression list is
`["Source = #\"MySql/host:3306;salesdb\""]`, one column `Amt`, one
measure `Total = SUM('Sales'[Amt])`, and no relationships. -/
def exampleSales : JVal :=
  .obj [("model", .obj [
    ("tables", .arr [
      .obj [
        ("name", .str "Sales"),
        ("partitions", .arr [
          .obj [("source", .obj [("expression",
            .arr [.str "Source = #\"MySql/host:3306;salesdb\""])])]
        ]),
        ("columns", .arr [.obj [("name", .str "Amt"), ("dataType", .str "Decimal")]]),
        ("measures", .arr [.obj [("name", .str "Total"),
          ("expression", .str "SUM('Sales'[Amt])")]])
      ]
    ]),
    ("relationships", .arr [])
  ])]

/-- A table whose first partition carries an expression with no
`Item`/`FROM` match while its second partition's expression does match. -/
def twoPartitionTable : JVal :=
  .obj [("name", .str "T"),
        ("partitions", .arr [
          .obj [("source", .obj [("expression", .arr [.str "no match here"])])],
          .obj [("source", .obj [("expression", .arr [.str "Item=\"Real\""])])]])]

/-- A document whose only table is the denylisted system table, carrying
one column. -/
def denylistDoc : JVal :=
  .obj [("model", .obj [("tables", .arr [
    .obj [("name", .str "User_用户权限表"),
          ("columns", .arr [.obj [("name", .str "c1"), ("dataType", .str "Text")]])]])])]

/-!  ## C2 — single-string expressions -/

/-- C2 counterexample: a backing expression given as a single string is
not matched at all — the very text that resolves to `T` when given as a
one-line list yields the sentinel when given as a plain string, and
connection extraction likewise yields empty strings on a single string
that would match as a list. -/
theorem c2_counterexample :
    extract_source_table (.str "Item=\"T\"") = .ok "DAX创建" ∧
    extract_source_table (.arr [.str "Item=\"T\""]) = .ok "T" ∧
    extract_connection_info (.str "Source = #\"MySql/host:3306;salesdb\"") = .ok ("", "") ∧
    extract_connection_info (.arr [.str "Source = #\"MySql/host:3306;salesdb\""]) =
      .ok ("MySql/host:3306", "salesdb") ∧
    ("DAX创建" : String) ≠ "T" := by
  refine ⟨rfl, rfl, rfl, rfl, ?_⟩
  decide

/-- C2 amended: source-table extraction does not apply to single-string
expressions.  For every expression given as one plain string — whatever
tags it contains — `_extract_source_table` returns the sentinel and
`_extract_connection_info` returns empty endpoint and database; only
list expressions are joined and matched. -/
theorem c2_single_string_sentinel (s : String) :
    extract_source_table (.str s) = .ok "DAX创建" ∧
    extract_connection_info (.str s) = .ok ("", "") :=
  ⟨rfl, rfl⟩

/-!  ## C7 — the worked example -/

/-- C7 counterexample: on the spec's worked example the table record's
sourceTable is the sentinel `DAX创建`, not `"Sales"` — the
`Source = #"..."` line matches neither the `Item` nor the `FROM`
pattern — and the measure's involvedTables line reads
`Sales (源表: DAX创建)`, not `Sales (source: Sales)`. -/
theorem c7_counterexample :
    (parse_tables (rawDataOf exampleSales) =
      .ok [{ name := "Sales", sourceTable := "DAX创建", partitionCount := 1 }]) ∧
    ("DAX创建" : String) ≠ "Sales" := by
  refine ⟨rfl, ?_⟩
  decide

/-- C7 amended: parsing the worked example yields one table record with
the sentinel sourceTable `DAX创建`, one column record with sourceColumn
`Amt`, one measure record whose involvedTables is
`Sales (源表: DAX创建)`, empty relationships, and one overview record
carrying connection endpoint `MySql/host:3306`, database `salesdb` and
protocol `MySql` (the endpoint and database live on the overview
record, not the table record). -/
theorem c7_worked_example :
    parse_file (some exampleSales) =
      .success
        [{ name := "Sales", sourceTable := "DAX创建", partitionCount := 1 }]
        [{ table := "Sales", sourceTable := "DAX创建", name := "Amt",
           sourceColumn := "Amt", dataType := "Decimal" }]
        [{ name := "Total", expr := "SUM('Sales'[Amt])", fmt := "", folder := "",
           involvedTables := "Sales (源表: DAX创建)",
           involvedColumns := "Amt (源列: Amt)", refs := "" }]
        []
        [{ name := "Sales", sourceTable := "DAX创建", columnCount := 1,
           measureCount := 1, partitionCount := 1, address := "MySql/host:3306",
           database := "salesdb", protocol := "MySql" }] := by
  rfl

/-!  ## Helper lemmas -/

/-- `bind` on a successful `Except` computation. -/
@[simp] theorem okBind {α β : Type} (a : α) (f : α → Except String β) :
    (Except.ok a : Except String α) >>= f = f a := rfl

/-- `bind` on a failed `Except` computation. -/
@[simp] theorem errBind {α β : Type} (e : String) (f : α → Except String β) :
    (Except.error e : Except String α) >>= f = Except.error e := rfl

/-- A raw document in which the membership probe for `model` answers
`False` makes every phase return its empty collection. -/
theorem runPhases_no_model (v : JVal) (h : pyContains "model" v = .ok false) :
    runPhases v = .ok ([], [], [], [], []) := by
  have hmt : modelTables v = .ok none := by
    unfold modelTables
    rw [h]
    rfl
  have ht : parse_tables v = .ok [] := by
    unfold parse_tables
    rw [hmt]
    rfl
  have hc : parse_columns v = .ok [] := by
    unfold parse_columns
    rw [hmt]
    rfl
  have hm : parse_measures v = .ok [] := by
    unfold parse_measures
    rw [hmt]
    rfl
  have hr : parse_relationships v = .ok [] := by
    unfold parse_relationships
    rw [h]
    rfl
  have ho : generate_overview v = .ok [] := by
    unfold generate_overview
    rw [h]
    rfl
  unfold runPhases
  rw [ht, hc, hm, hr, ho]
  rfl

/-!  ## C9 — the outermost error boundary -/

/-- C9: `parse_file` always returns a result record.  Text that does not
decode as JSON yields a failure carrying the decode message and no
collections (the failure shape has none); a phase fault — exceptions
such as the membership `TypeError` on a scalar document — is caught and
converted into a failure result with the underlying message; and when
no phase faults the result is a success with the five collections. -/
theorem c9_outer_boundary :
    parse_file none = .failure "无法解析为JSON" ∧
    (∀ v e, runPhases (rawDataOf v) = .error e → parse_file (some v) = .failure e) ∧
    (∀ v t c m r o, runPhases (rawDataOf v) = .ok (t, c, m, r, o) →
      parse_file (some v) = .success t c m r o) := by
  refine ⟨rfl, ?_, ?_⟩
  · intro v e h
    simp only [parse_file, h]
  · intro v t c m r o h
    simp only [parse_file, h]

/-- C9 witness: at the scalar document `5` the phases fault with a
`TypeError` and `parse_file` reports that fault as a failure result. -/
theorem c9_outer_boundary_witness :
    parse_file (some (.num 5)) = .failure "TypeError: argument is not iterable" :=
  c9_outer_boundary.2.1 (.num 5) "TypeError: argument is not iterable" rfl

/-!  ## C8 — well-formed but unrecognized documents -/

/-- C8 counterexample: the input text `null` decodes as valid JSON and
no model substructure is located in it, yet `parse_file` reports a
failure (the membership probe `"model" not in raw_data` raises a
`TypeError` on a scalar), not a success with empty collections. -/
theorem c8_counterexample :
    locateModel .null = none ∧
    parse_file (some .null) = .failure "TypeError: argument is not iterable" :=
  ⟨rfl, rfl⟩

/-- C8 amended: the success-with-empty-collections outcome holds for
documents that decode to a JSON object or array on which the membership
probes do not fault: an object with no locatable model and no top-level
`model` key, an array with no locatable model and no `"model"` string
element, and a located model object with neither a `tables` nor a
`relationships` key all yield success with all five collections empty.
(Scalar documents instead fault in the probe and report failure.) -/
theorem c8_empty_success :
    (∀ fs : List (String × JVal), locateModel (.obj fs) = none →
      (∀ p ∈ fs, p.1 ≠ "model") →
      parse_file (some (.obj fs)) = .success [] [] [] [] []) ∧
    (∀ xs : List JVal, locateModel (.arr xs) = none →
      (∀ x ∈ xs, x ≠ .str "model") →
      parse_file (some (.arr xs)) = .success [] [] [] [] []) ∧
    (∀ mfs : List (String × JVal),
      (∀ p ∈ mfs, p.1 ≠ "tables") →
      (∀ p ∈ mfs, p.1 ≠ "relationships") →
      parse_file (some (.obj [("model", .obj mfs)])) = .success [] [] [] [] []) := by
  refine ⟨?_, ?_, ?_⟩
  · intro fs h1 h2
    have hc : pyContains "model" (.obj fs) = .ok false := by
      simp only [pyContains, Except.ok.injEq]
      rw [List.any_eq_false]
      intro p hp
      simpa using h2 p hp
    have hrd : rawDataOf (.obj fs) = .obj fs := by
      unfold rawDataOf
      rw [h1]
    simp only [parse_file, hrd, runPhases_no_model _ hc]
  · intro xs h1 h2
    have hc : pyContains "model" (.arr xs) = .ok false := by
      simp only [pyContains, Except.ok.injEq]
      rw [List.any_eq_false]
      intro x hx
      match x, h2 x hx with
      | .str s, hne =>
          simp only [decide_eq_true_eq]
          intro hs
          exact hne (by rw [hs])
      | .null, _ => simp
      | .bool b, _ => simp
      | .num n, _ => simp
      | .arr ys, _ => simp
      | .obj gs, _ => simp
    have hrd : rawDataOf (.arr xs) = .arr xs := by
      unfold rawDataOf
      rw [h1]
    simp only [parse_file, hrd, runPhases_no_model _ hc]
  · intro mfs h1 h2
    have hanyT : mfs.any (fun p => p.1 = "tables") = false := by
      rw [List.any_eq_false]
      intro p hp
      simpa using h1 p hp
    have hanyR : mfs.any (fun p => p.1 = "relationships") = false := by
      rw [List.any_eq_false]
      intro p hp
      simpa using h2 p hp
    have hfindT : mfs.find? (fun p => p.1 = "tables") = none := by
      rw [List.find?_eq_none]
      intro p hp
      simpa using h1 p hp
    have hmt : modelTables (.obj [("model", .obj mfs)]) = .ok none := by
      unfold modelTables
      show ((pyContains "model" (.obj [("model", .obj mfs)])) >>= _) = _
      rw [show pyContains "model" (.obj [("model", .obj mfs)]) = .ok true from rfl]
      rw [okBind]
      show ((pyIndex (.obj [("model", .obj mfs)]) "model") >>= _) = _
      rw [show pyIndex (.obj [("model", .obj mfs)]) "model" = .ok (.obj mfs) from rfl]
      rw [okBind]
      show ((pyContains "tables" (.obj mfs)) >>= _) = _
      rw [show pyContains "tables" (.obj mfs) = .ok (mfs.any (fun p => p.1 = "tables")) from rfl]
      rw [hanyT, okBind]
      rfl
    have ht : parse_tables (.obj [("model", .obj mfs)]) = .ok [] := by
      unfold parse_tables
      rw [hmt]
      rfl
    have hc : parse_columns (.obj [("model", .obj mfs)]) = .ok [] := by
      unfold parse_columns
      rw [hmt]
      rfl
    have hm : parse_measures (.obj [("model", .obj mfs)]) = .ok [] := by
      unfold parse_measures
      rw [hmt]
      rfl
    have hr : parse_relationships (.obj [("model", .obj mfs)]) = .ok [] := by
      unfold parse_relationships
      show ((pyContains "model" (.obj [("model", .obj mfs)])) >>= _) = _
      rw [show pyContains "model" (.obj [("model", .obj mfs)]) = .ok true from rfl]
      rw [okBind]
      show (if !true then _ else _) = _
      simp only [Bool.not_true, Bool.false_eq_true, if_false]
      show ((pyIndex (.obj [("model", .obj mfs)]) "model") >>= _) = _
      rw [show pyIndex (.obj [("model", .obj mfs)]) "model" = .ok (.obj mfs) from rfl]
      rw [okBind]
      show ((pyContains "relationships" (.obj mfs)) >>= _) = _
      rw [show pyContains "relationships" (.obj mfs) =
        .ok (mfs.any (fun p => p.1 = "relationships")) from rfl]
      rw [hanyR, okBind]
      rfl
    have ho : generate_overview (.obj [("model", .obj mfs)]) = .ok [] := by
      unfold generate_overview
      show ((pyContains "model" (.obj [("model", .obj mfs)])) >>= _) = _
      rw [show pyContains "model" (.obj [("model", .obj mfs)]) = .ok true from rfl]
      rw [okBind]
      show (if !true then _ else _) = _
      simp only [Bool.not_true, Bool.false_eq_true, if_false]
      show ((pyIndex (.obj [("model", .obj mfs)]) "model") >>= _) = _
      rw [show pyIndex (.obj [("model", .obj mfs)]) "model" = .ok (.obj mfs) from rfl]
      rw [okBind]
      show ((pyGetD (.obj mfs) "tables" (.arr [])) >>= _) = _
      rw [show pyGetD (.obj mfs) "tables" (.arr []) =
        .ok ((getKey mfs "tables").getD (.arr [])) from rfl]
      rw [show getKey mfs "tables" = none by unfold getKey; rw [hfindT]; rfl]
      rfl
    have hraw : rawDataOf (.obj [("model", .obj mfs)]) = .obj [("model", .obj mfs)] := rfl
    have hrun : runPhases (.obj [("model", .obj mfs)]) = .ok ([], [], [], [], []) := by
      unfold runPhases
      rw [ht, hc, hm, hr, ho]
      rfl
    simp only [parse_file, hraw, hrun]

/-- C8 witness: the object `{"a": 1}` has no locatable model and no
`model` key; parsing it succeeds with all collections empty. -/
theorem c8_empty_success_witness :
    parse_file (some (.obj [("a", .num 1)])) = .success [] [] [] [] [] :=
  c8_empty_success.1 [("a", .num 1)] rfl (by intro p hp; rw [List.mem_singleton] at hp; rw [hp]; decide)

/-!  ## C6 — the referencedMeasures pass -/

/-- C6 counterexample: a self-referential measure `A` with expression
`[A]+1` receives its own name in its 度量值引用 field; the field is not
restricted to other measures' names. -/
theorem c6_counterexample :
    resolve_all_measure_references
      [{ name := "A", expr := "[A]+1", fmt := "", folder := "",
         involvedTables := "", involvedColumns := "", refs := "" }] =
      [{ name := "A", expr := "[A]+1", fmt := "", folder := "",
         involvedTables := "", involvedColumns := "", refs := "A" }] := rfl

/-- The membership of the reference-list fold. -/
theorem mem_refListFold (names : List String) (toks : List String) (acc : List String)
    (tok : String) :
    tok ∈ toks.foldl (fun acc t => if t ∈ names ∧ t ∉ acc then acc ++ [t] else acc) acc ↔
      tok ∈ acc ∨ (tok ∈ toks ∧ tok ∈ names) := by
  induction toks generalizing acc with
  | nil => simp
  | cons t rest ih =>
    simp only [List.foldl_cons]
    by_cases h1 : t ∈ names
    · by_cases h2 : t ∈ acc
      · rw [if_neg (by simp [h2])]
        rw [ih]
        simp only [List.mem_cons]
        constructor
        · rintro (ha | ⟨hr, hn⟩)
          · exact Or.inl ha
          · exact Or.inr ⟨Or.inr hr, hn⟩
        · rintro (ha | ⟨ht | hr, hn⟩)
          · exact Or.inl ha
          · exact Or.inl (ht ▸ h2)
          · exact Or.inr ⟨hr, hn⟩
      · rw [if_pos ⟨h1, h2⟩]
        rw [ih]
        simp only [List.mem_append, List.mem_cons, List.not_mem_nil, or_false]
        constructor
        · rintro ((ha | he) | ⟨hr, hn⟩)
          · exact Or.inl ha
          · exact Or.inr ⟨Or.inl he, he ▸ h1⟩
          · exact Or.inr ⟨Or.inr hr, hn⟩
        · rintro (ha | ⟨ht | hr, hn⟩)
          · exact Or.inl (Or.inl ha)
          · exact Or.inl (Or.inr ht)
          · exact Or.inr ⟨hr, hn⟩
    · rw [if_neg (by simp [h1])]
      rw [ih]
      simp only [List.mem_cons]
      constructor
      · rintro (ha | ⟨hr, hn⟩)
        · exact Or.inl ha
        · exact Or.inr ⟨Or.inr hr, hn⟩
      · rintro (ha | ⟨ht | hr, hn⟩)
        · exact Or.inl ha
        · exact absurd (ht ▸ hn) h1
        · exact Or.inr ⟨hr, hn⟩

/-- The reference-list fold keeps its accumulator duplicate-free. -/
theorem nodup_refListFold (names : List String) (toks : List String) (acc : List String)
    (hacc : acc.Nodup) :
    (toks.foldl (fun acc t => if t ∈ names ∧ t ∉ acc then acc ++ [t] else acc) acc).Nodup := by
  induction toks generalizing acc with
  | nil => simpa
  | cons t rest ih =>
    simp only [List.foldl_cons]
    by_cases h : t ∈ names ∧ t ∉ acc
    · simp only [h, if_true]
      exact ih _ (by simp [List.nodup_append, hacc, h.2])
    · simp only [h, if_false]
      exact ih _ hacc

/-- C6 amended: each record's 度量值引用 field produced by the final
pass is the newline join of `refListFor`, and a name is in that list
exactly when it is a bracketed token of the record's normalised
expression and is a known measure name of the batch — possibly
including the record's own name, deduplicated in first-occurrence
order, one level deep. -/
theorem c6_referenced_measures :
    (∀ ms : List MeasureRec, resolve_all_measure_references ms =
      ms.map (fun m =>
        { m with refs := String.intercalate "\n" (refListFor (ms.map (fun x => x.name)) m.expr) })) ∧
    (∀ names e tok, tok ∈ refListFor names e ↔
      tok ∈ measureRefTokens e ∧ tok ∈ names) ∧
    (∀ names e, (refListFor names e).Nodup) := by
  refine ⟨?_, ?_, ?_⟩
  · intro ms
    unfold resolve_all_measure_references
    apply List.map_congr_left
    intro m _
    by_cases h : refListFor (ms.map (fun x => x.name)) m.expr = []
    · simp only [h, List.isEmpty_nil, if_true]
      rfl
    · simp [h]
  · intro names e tok
    unfold refListFor
    rw [mem_refListFold]
    simp
  · intro names e
    exact nodup_refListFold _ _ _ List.nodup_nil

/-!  ## C1 — which partition wins -/

/-- C1 counterexample: for `twoPartitionTable` the first partition
carries an expression with no `Item`/`FROM` match and the second
partition's expression extracts `Real`, yet the table record's
sourceTable is the sentinel `DAX创建` — the scan breaks at the first
partition that merely CARRIES an expression, not the first whose
expression yields a match. -/
theorem c1_counterexample :
    tableRecOf twoPartitionTable =
      .ok (some { name := "T", sourceTable := "DAX创建", partitionCount := 2 }) ∧
    extract_source_table (.arr [.str "Item=\"Real\""]) = .ok "Real" ∧
    ("DAX创建" : String) ≠ "Real" := by
  refine ⟨rfl, rfl, ?_⟩
  decide

/-- Partitions that do not carry `source.expression` are skipped by the
scan. -/
theorem findPartitionExpr_append (pre rest : List JVal)
    (hpre : ∀ q ∈ pre, partitionExpr q = .ok none) :
    findPartitionExpr (pre ++ rest) = findPartitionExpr rest := by
  induction pre with
  | nil => rfl
  | cons q pre ih =>
    have hstep : findPartitionExpr ((q :: pre) ++ rest) =
        (partitionExpr q) >>= (fun x => match x with
          | some e => pure (some e)
          | none => findPartitionExpr (pre ++ rest)) := rfl
    rw [hstep, hpre q (List.mem_cons_self q pre), okBind]
    exact ih (fun p hp => hpre p (List.mem_cons_of_mem q hp))

/-- C1 amended: the resolved sourceTable is taken from the first
partition that carries a backing expression, whether or not that
expression yields an `Item`/`FROM` match: for a table whose partitions
are `pre ++ p :: post` where no partition of `pre` carries
`source.expression` and `p` carries expression `e`, the table record's
sourceTable is `_extract_source_table e` — every later partition is
ignored, even one whose expression would match. -/
theorem c1_first_expression_partition_wins
    (pre post : List JVal) (p e : JVal) (n s : String)
    (hpre : ∀ q ∈ pre, partitionExpr q = .ok none)
    (hp : partitionExpr p = .ok (some e))
    (hn : n ∉ system_tables)
    (hs : extract_source_table e = .ok s) :
    tableRecOf (.obj [("name", .str n), ("partitions", .arr (pre ++ p :: post))]) =
      .ok (some { name := n, sourceTable := s,
                  partitionCount := (pre ++ p :: post).length }) := by
  have hfind : findPartitionExpr (pre ++ p :: post) = .ok (some e) := by
    rw [findPartitionExpr_append pre _ hpre]
    have hstep : findPartitionExpr (p :: post) =
        (partitionExpr p) >>= (fun x => match x with
          | some e => pure (some e)
          | none => findPartitionExpr post) := rfl
    rw [hstep, hp, okBind]
    rfl
  have hsrc : tableSourceTable
      (.obj [("name", .str n), ("partitions", .arr (pre ++ p :: post))]) = .ok s := by
    unfold tableSourceTable
    show ((pyContains "partitions" _) >>= _) = _
    rw [show pyContains "partitions"
        (.obj [("name", .str n), ("partitions", .arr (pre ++ p :: post))]) = .ok true from rfl]
    rw [okBind]
    show (if true then _ else _) = _
    rw [if_pos rfl]
    show ((pyIndex _ "partitions") >>= _) = _
    rw [show pyIndex (.obj [("name", .str n), ("partitions", .arr (pre ++ p :: post))])
        "partitions" = .ok (.arr (pre ++ p :: post)) from rfl]
    rw [okBind]
    have htr : pyTruthy (.arr (pre ++ p :: post)) = true := by
      simp [pyTruthy]
    rw [htr]
    show (if true then _ else _) = _
    rw [if_pos rfl]
    show ((pySeq (.arr (pre ++ p :: post))) >>= _) = _
    rw [show pySeq (.arr (pre ++ p :: post)) = .ok (pre ++ p :: post) from rfl, okBind]
    show ((findPartitionExpr (pre ++ p :: post)) >>= _) = _
    rw [hfind, okBind]
    exact hs
  unfold tableRecOf
  show ((pyGetD _ "name" _) >>= _) = _
  rw [show pyGetD (.obj [("name", .str n), ("partitions", .arr (pre ++ p :: post))])
      "name" (.str "") = .ok (.str n) from rfl]
  rw [okBind]
  show ((asStr (.str n)) >>= _) = _
  rw [show asStr (.str n) = .ok n from rfl, okBind]
  rw [if_neg hn]
  show ((tableSourceTable _) >>= _) = _
  rw [hsrc, okBind]
  show ((pyContains "partitions" _) >>= _) = _
  rw [show pyContains "partitions"
      (.obj [("name", .str n), ("partitions", .arr (pre ++ p :: post))]) = .ok true from rfl]
  rw [okBind]
  rfl

/-- C1 witness: a first partition with no `source` key at all is
skipped; the second partition's `Item="Real"` expression then resolves
the source table to `Real`. -/
theorem c1_first_expression_partition_wins_witness :
    tableRecOf (.obj [("name", .str "T"), ("partitions", .arr
      ([.obj []] ++ (.obj [("source", .obj [("expression", .arr [.str "Item=\"Real\""])])]) ::
        []))]) =
      .ok (some { name := "T", sourceTable := "Real", partitionCount := 2 }) :=
  c1_first_expression_partition_wins [.obj []] []
    (.obj [("source", .obj [("expression", .arr [.str "Item=\"Real\""])])])
    (.arr [.str "Item=\"Real\""]) "T" "Real"
    (by intro q hq; rw [List.mem_singleton] at hq; rw [hq]; rfl)
    rfl (by decide) rfl

/-!  ## C4 — the system-table denylist -/

/-- C4 counterexample: a document whose only table is the denylisted
`User_用户权限表` parses to a success whose tables collection is empty,
yet the denylisted table appears both in the columns collection and in
the overview collection. -/
theorem c4_counterexample :
    parse_file (some denylistDoc) =
      .success []
        [{ table := "User_用户权限表", sourceTable := "DAX创建", name := "c1",
           sourceColumn := "c1", dataType := "Text" }]
        [] []
        [{ name := "User_用户权限表", sourceTable := "DAX创建", columnCount := 1,
           measureCount := 0, partitionCount := 0, address := "", database := "",
           protocol := "" }] := rfl

/-- Splitting a successful `Except` bind. -/
theorem bind_ok_inv {α β : Type} {x : Except String α} {f : α → Except String β} {b : β}
    (h : x >>= f = .ok b) : ∃ a, x = .ok a ∧ f a = .ok b := by
  cases x with
  | ok a => exact ⟨a, rfl, h⟩
  | error e =>
      rw [errBind] at h
      exact Except.noConfusion h

/-- A table record produced by the `_parse_tables` loop body never
carries a denylisted name. -/
theorem tableRecOf_not_system (t : JVal) (r : TableRec)
    (h : tableRecOf t = .ok (some r)) : r.name ∉ system_tables := by
  unfold tableRecOf at h
  obtain ⟨nv, _, h⟩ := bind_ok_inv h
  obtain ⟨name, _, h⟩ := bind_ok_inv h
  by_cases hmem : name ∈ system_tables
  · rw [if_pos hmem] at h
    simp only [pure, Except.pure] at h
    cases h
  · rw [if_neg hmem] at h
    obtain ⟨st, _, h⟩ := bind_ok_inv h
    obtain ⟨hasP, _, h⟩ := bind_ok_inv h
    by_cases hb : hasP = true
    · rw [if_pos hb] at h
      obtain ⟨ps, _, h⟩ := bind_ok_inv h
      obtain ⟨pc, _, h⟩ := bind_ok_inv h
      simp only [pure, Except.pure, Except.ok.injEq, Option.some.injEq] at h
      rw [← h]
      exact hmem
    · rw [if_neg hb] at h
      simp only [pure, Except.pure, Except.ok.injEq, Option.some.injEq] at h
      rw [← h]
      exact hmem

/-- The `_parse_tables` fold only accumulates non-denylisted records. -/
theorem parse_tables_fold_not_system (tables : List JVal) (acc recs : List TableRec)
    (hacc : ∀ r ∈ acc, r.name ∉ system_tables)
    (h : (tables.foldlM (fun acc table => do
        match ← tableRecOf table with
        | some r => pure (acc ++ [r])
        | none => pure acc) acc) = .ok recs) :
    ∀ r ∈ recs, r.name ∉ system_tables := by
  induction tables generalizing acc with
  | nil =>
      simp only [List.foldlM_nil, pure, Except.pure, Except.ok.injEq] at h
      rw [← h]
      exact hacc
  | cons t rest ih =>
      rw [List.foldlM_cons] at h
      obtain ⟨acc2, hf, h⟩ := bind_ok_inv h
      obtain ⟨o, ho, hm⟩ := bind_ok_inv hf
      cases o with
      | some r =>
          simp only [pure, Except.pure, Except.ok.injEq] at hm
          refine ih acc2 ?_ h
          rw [← hm]
          intro r2 hr2
          rcases List.mem_append.mp hr2 with h2 | h2
          · exact hacc r2 h2
          · rw [List.mem_singleton] at h2
            rw [h2]
            exact tableRecOf_not_system t r ho
      | none =>
          simp only [pure, Except.pure, Except.ok.injEq] at hm
          refine ih acc2 ?_ h
          rw [← hm]
          exact hacc

/-- C4 amended: the denylist is applied only by the tables phase — no
record of the tables collection ever carries a denylisted name — while
the columns and overview phases (and likewise measures and
relationships) apply no such filter, so a denylisted table present in
the input still appears in those collections, as on `denylistDoc`. -/
theorem c4_denylist_scope :
    (∀ (rawData : JVal) (recs : List TableRec), parse_tables rawData = .ok recs →
      ∀ r ∈ recs, r.name ∉ system_tables) ∧
    (parse_columns (rawDataOf denylistDoc)).map (fun l => l.map (fun c => c.table)) =
      .ok ["User_用户权限表"] ∧
    (generate_overview (rawDataOf denylistDoc)).map (fun l => l.map (fun o => o.name)) =
      .ok ["User_用户权限表"] := by
  refine ⟨?_, rfl, rfl⟩
  intro rawData recs h
  unfold parse_tables at h
  obtain ⟨mt, _, h⟩ := bind_ok_inv h
  cases mt with
  | none =>
      simp only [pure, Except.pure, Except.ok.injEq] at h
      rw [← h]
      intro r hr
      cases hr
  | some tables =>
      exact parse_tables_fold_not_system tables [] recs (by intro r hr; cases hr) h

/-- C4 witness: the denylist-exclusion half applied to the worked
example's tables collection. -/
theorem c4_denylist_scope_witness :
    ({ name := "Sales", sourceTable := "DAX创建", partitionCount := 1 } : TableRec).name ∉
      system_tables :=
  c4_denylist_scope.1 (rawDataOf exampleSales)
    [{ name := "Sales", sourceTable := "DAX创建", partitionCount := 1 }] rfl
    { name := "Sales", sourceTable := "DAX创建", partitionCount := 1 }
    (List.mem_singleton.mpr rfl)

/-!  ## C10 — identity rename mappings -/

/-- A single-table document shape for the column-provenance claims: one
partition carrying expression `e`, one column `X` with a declared
`sourceColumn` attribute `s`. -/
def c10Table (T X dataT s : String) (e : JVal) : JVal :=
  .obj [("name", .str T),
        ("partitions", .arr [.obj [("source", .obj [("expression", e)])]]),
        ("columns", .arr [.obj [("name", .str X), ("dataType", .str dataT),
          ("sourceColumn", .str s)]])]

def c10Raw (T X dataT s : String) (e : JVal) : JVal :=
  .obj [("model", .obj [("tables", .arr [c10Table T X dataT s e])])]

/-- On the single-table shape, the provenance resolver reduces to the
partition scan. -/
theorem c10_resolver_is_scan (T X dataT s : String) (e : JVal) (r : Except String String)
    (hscan : scanRenamePartitions X [.obj [("source", .obj [("expression", e)])]] = r) :
    extract_column_source (c10Raw T X dataT s e) T X = r := by
  have h2 : findTargetTable [c10Table T X dataT s e] T = .ok (some (c10Table T X dataT s e)) := by
    have hstep : findTargetTable [c10Table T X dataT s e] T =
        (if T = T then (.ok (some (c10Table T X dataT s e)) : Except String (Option JVal))
         else findTargetTable [] T) := rfl
    rw [hstep, if_pos rfl]
  unfold extract_column_source
  show ((modelTables (c10Raw T X dataT s e)) >>= _) = _
  rw [show modelTables (c10Raw T X dataT s e) =
      .ok (some [c10Table T X dataT s e]) from rfl]
  rw [okBind]
  show ((findTargetTable [c10Table T X dataT s e] T) >>= _) = _
  rw [h2, okBind]
  show (if !(pyTruthy (c10Table T X dataT s e)) then _ else _) = _
  rw [show pyTruthy (c10Table T X dataT s e) = true from rfl]
  simp only [Bool.not_true, Bool.false_eq_true, if_false]
  show ((pyContains "partitions" (c10Table T X dataT s e)) >>= _) = _
  rw [show pyContains "partitions" (c10Table T X dataT s e) = .ok true from rfl, okBind]
  show (if !true then _ else _) = _
  simp only [Bool.not_true, Bool.false_eq_true, if_false]
  show ((pyIndex (c10Table T X dataT s e) "partitions") >>= _) = _
  rw [show pyIndex (c10Table T X dataT s e) "partitions" =
      .ok (.arr [.obj [("source", .obj [("expression", e)])]]) from rfl, okBind]
  show ((pySeq (.arr [.obj [("source", .obj [("expression", e)])]])) >>= _) = _
  rw [show pySeq (.arr [.obj [("source", .obj [("expression", e)])]]) =
      .ok [.obj [("source", .obj [("expression", e)])]] from rfl, okBind]
  exact hscan

/-- The partition scan on one partition carrying expression `e`. -/
theorem c10_scan_step (X : String) (e : JVal) (d : List (String × String))
    (hmap : extract_rename_mappings e = .ok d) :
    scanRenamePartitions X [.obj [("source", .obj [("expression", e)])]] =
      (match dictLookup d X with
       | some src => .ok src
       | none => .ok X) := by
  have hstep : scanRenamePartitions X [.obj [("source", .obj [("expression", e)])]] =
      (extract_rename_mappings e) >>= (fun m =>
        match dictLookup m X with
        | some src => pure src
        | none => scanRenamePartitions X []) := rfl
  rw [hstep, hmap, okBind]
  cases dictLookup d X with
  | some src => rfl
  | none => rfl

/-- C10: a rename-mapping pair whose old and new names are identical is
indistinguishable from the no-mapping case — the resolver returns the
column's own name either way — so the column record's resolved
sourceColumn falls back to the declared `sourceColumn` attribute (when
non-empty) rather than the mapped name. -/
theorem c10_identity_rename_fallback
    (T X s dataT srcT : String) (e : JVal) (d : List (String × String))
    (hmap : extract_rename_mappings e = .ok d)
    (hid : dictLookup d X = some X)
    (hs : s ≠ "")
    (hsrc : extract_source_table e = .ok srcT) :
    extract_column_source (c10Raw T X dataT s e) T X = .ok X ∧
    (∀ (e2 : JVal) (d2 : List (String × String)), extract_rename_mappings e2 = .ok d2 →
      dictLookup d2 X = none →
      extract_column_source (c10Raw T X dataT s e2) T X = .ok X) ∧
    parse_columns (c10Raw T X dataT s e) =
      .ok [{ table := T, sourceTable := srcT, name := X, sourceColumn := s,
             dataType := dataT }] := by
  have hres : extract_column_source (c10Raw T X dataT s e) T X = .ok X := by
    apply c10_resolver_is_scan
    rw [c10_scan_step X e d hmap, hid]
  refine ⟨hres, ?_, ?_⟩
  · intro e2 d2 hmap2 hnone
    apply c10_resolver_is_scan
    rw [c10_scan_step X e2 d2 hmap2, hnone]
  · have hsct : tableSourceTable (c10Table T X dataT s e) = .ok srcT := by
      unfold tableSourceTable
      show ((pyContains "partitions" (c10Table T X dataT s e)) >>= _) = _
      rw [show pyContains "partitions" (c10Table T X dataT s e) = .ok true from rfl, okBind]
      show (if true then _ else _) = _
      rw [if_pos rfl]
      show ((pyIndex (c10Table T X dataT s e) "partitions") >>= _) = _
      rw [show pyIndex (c10Table T X dataT s e) "partitions" =
          .ok (.arr [.obj [("source", .obj [("expression", e)])]]) from rfl, okBind]
      rw [show pyTruthy (.arr [.obj [("source", .obj [("expression", e)])]]) = true from rfl]
      show (if true then _ else _) = _
      rw [if_pos rfl]
      show ((pySeq (.arr [.obj [("source", .obj [("expression", e)])]])) >>= _) = _
      rw [show pySeq (.arr [.obj [("source", .obj [("expression", e)])]]) =
          .ok [.obj [("source", .obj [("expression", e)])]] from rfl, okBind]
      show ((findPartitionExpr [.obj [("source", .obj [("expression", e)])]]) >>= _) = _
      rw [show findPartitionExpr [.obj [("source", .obj [("expression", e)])]] =
          .ok (some e) from rfl, okBind]
      exact hsrc
    have hcol : columnRecOf (c10Raw T X dataT s e) T srcT
        (.obj [("name", .str X), ("dataType", .str dataT), ("sourceColumn", .str s)]) =
        .ok { table := T, sourceTable := srcT, name := X, sourceColumn := s,
              dataType := dataT } := by
      unfold columnRecOf
      show ((pyGetD _ "name" _) >>= _) = _
      rw [show pyGetD (.obj [("name", .str X), ("dataType", .str dataT),
          ("sourceColumn", .str s)]) "name" (.str "") = .ok (.str X) from rfl, okBind]
      show ((asStr (.str X)) >>= _) = _
      rw [show asStr (.str X) = .ok X from rfl, okBind]
      show ((pyGetD _ "dataType" _) >>= _) = _
      rw [show pyGetD (.obj [("name", .str X), ("dataType", .str dataT),
          ("sourceColumn", .str s)]) "dataType" (.str "") = .ok (.str dataT) from rfl, okBind]
      show ((asStr (.str dataT)) >>= _) = _
      rw [show asStr (.str dataT) = .ok dataT from rfl, okBind]
      show ((extract_column_source (c10Raw T X dataT s e) T X) >>= _) = _
      rw [hres, okBind]
      rw [if_pos rfl]
      show ((pyGetD _ "sourceColumn" _) >>= _) = _
      rw [show pyGetD (.obj [("name", .str X), ("dataType", .str dataT),
          ("sourceColumn", .str s)]) "sourceColumn" (.str "") = .ok (.str s) from rfl, okBind]
      show ((asStr (.str s)) >>= _) = _
      rw [show asStr (.str s) = .ok s from rfl, okBind]
      show (pure (ColumnRec.mk T srcT X (if s = "" then X else s) dataT) :
          Except String ColumnRec) = _
      rw [if_neg hs]
      rfl
    have hbody : parse_columns_table (c10Raw T X dataT s e) []
        (c10Table T X dataT s e) =
        .ok [{ table := T, sourceTable := srcT, name := X, sourceColumn := s,
               dataType := dataT }] := by
      unfold parse_columns_table
      show ((pyGetD (c10Table T X dataT s e) "name" (.str "")) >>= _) = _
      rw [show pyGetD (c10Table T X dataT s e) "name" (.str "") = .ok (.str T) from rfl,
        okBind]
      show ((asStr (.str T)) >>= _) = _
      rw [show asStr (.str T) = .ok T from rfl, okBind]
      show ((tableSourceTable (c10Table T X dataT s e)) >>= _) = _
      rw [hsct, okBind]
      show ((pyContains "columns" (c10Table T X dataT s e)) >>= _) = _
      rw [show pyContains "columns" (c10Table T X dataT s e) = .ok true from rfl, okBind]
      show (if true then _ else _) = _
      rw [if_pos rfl]
      show ((pyIndex (c10Table T X dataT s e) "columns") >>= _) = _
      rw [show pyIndex (c10Table T X dataT s e) "columns" = .ok (.arr [.obj [("name", .str X),
          ("dataType", .str dataT), ("sourceColumn", .str s)]]) from rfl, okBind]
      show ((pySeq _) >>= _) = _
      rw [show pySeq (.arr [.obj [("name", .str X), ("dataType", .str dataT),
          ("sourceColumn", .str s)]]) = .ok [.obj [("name", .str X), ("dataType", .str dataT),
          ("sourceColumn", .str s)]] from rfl, okBind]
      rw [List.foldlM_cons]
      show (((columnRecOf (c10Raw T X dataT s e) T srcT _) >>= _) >>= _) = _
      rw [hcol, okBind]
      rfl
    unfold parse_columns
    show ((modelTables (c10Raw T X dataT s e)) >>= _) = _
    rw [show modelTables (c10Raw T X dataT s e) =
        .ok (some [c10Table T X dataT s e]) from rfl, okBind]
    show (List.foldlM (parse_columns_table (c10Raw T X dataT s e))
      ([] : List ColumnRec) [c10Table T X dataT s e]) = _
    rw [List.foldlM_cons, hbody, okBind]
    rfl

/-- C10 witness: an expression with the identity pair
`Table.RenameColumns(Source, {{"X", "X"}})` leaves the resolver at the
column's own name and the record falls back to the declared attribute
`orig`. -/
theorem c10_identity_rename_fallback_witness :
    extract_column_source (c10Raw "Sales" "X" "Decimal" "orig"
      (.arr [.str "Table.RenameColumns(Source, \x7b\x7b\"X\", \"X\"\x7d\x7d)"])) "Sales" "X" =
      .ok "X" ∧
    parse_columns (c10Raw "Sales" "X" "Decimal" "orig"
      (.arr [.str "Table.RenameColumns(Source, \x7b\x7b\"X\", \"X\"\x7d\x7d)"])) =
      .ok [{ table := "Sales", sourceTable := "DAX创建", name := "X",
             sourceColumn := "orig", dataType := "Decimal" }] := by
  have h := c10_identity_rename_fallback "Sales" "X" "orig" "Decimal" "DAX创建"
    (.arr [.str "Table.RenameColumns(Source, \x7b\x7b\"X\", \"X\"\x7d\x7d)"])
    [("X", "X")] rfl rfl (by decide) rfl
  exact ⟨h.1, h.2.2⟩

/-!  ## C5 — termination and single-visit of the recursive resolution

The fuel argument of `resolveRefs` stands in for Python's unbounded
recursion; the lemmas below show that the computation is insensitive to
the fuel as soon as it exceeds the number of known measure names not
yet visited, which is the formal content of "the recursion terminates",
and that the visit log never repeats a measure. -/

/-- The distinct measure names of the lookup (the keys of
`measure_lookup`). -/
def lookupNames (lookup : List (String × String)) : List String :=
  (lookup.map Prod.fst).dedup

/-- How many known measure names are not yet visited. -/
def unvisited (lookup : List (String × String)) (st : ResolveState) : Nat :=
  ((lookupNames lookup).filter (fun n => n ∉ st.visited)).length

/-- A token with an entry in the lookup is a known measure name. -/
theorem dictLookup_mem_names {l : List (String × String)} {tok v : String}
    (h : dictLookup l tok = some v) : tok ∈ lookupNames l := by
  unfold dictLookup at h
  cases hf : l.find? (fun p => p.1 = tok) with
  | none => rw [hf] at h; cases h
  | some p =>
      have hp := List.find?_some hf
      have hm := List.mem_of_find?_eq_some hf
      unfold lookupNames
      rw [List.mem_dedup]
      simp only [decide_eq_true_eq] at hp
      rw [← hp]
      exact List.mem_map_of_mem Prod.fst hm

/-- Marking one more unvisited known name strictly shrinks the
unvisited count. -/
theorem unvisited_append_lt (l : List (String × String)) (v : List String) (tok : String)
    (htok : tok ∈ lookupNames l) (hnv : tok ∉ v) :
    ((lookupNames l).filter (fun n => n ∉ v ++ [tok])).length <
      ((lookupNames l).filter (fun n => n ∉ v)).length := by
  obtain ⟨L1, L2, hL⟩ := List.append_of_mem htok
  rw [hL]
  simp only [List.filter_append, List.filter_cons, List.length_append]
  have h1 : (tok ∉ v ++ [tok] : Bool) = false := by simp
  have h2 : (tok ∉ v : Bool) = true := by simpa using hnv
  rw [h1, h2]
  simp only [Bool.false_eq_true, if_false, if_true, List.length_cons]
  have hm1 : (L1.filter (fun n => n ∉ v ++ [tok])).length ≤
      (L1.filter (fun n => n ∉ v)).length := by
    apply List.Sublist.length_le
    apply List.monotone_filter_right
    intro a ha
    simp only [decide_eq_true_eq] at ha ⊢
    intro hav
    exact ha (List.mem_append_left _ hav)
  have hm2 : (L2.filter (fun n => n ∉ v ++ [tok])).length ≤
      (L2.filter (fun n => n ∉ v)).length := by
    apply List.Sublist.length_le
    apply List.monotone_filter_right
    intro a ha
    simp only [decide_eq_true_eq] at ha ⊢
    intro hav
    exact ha (List.mem_append_left _ hav)
  omega

/-- A longer visit log leaves no more names unvisited. -/
theorem unvisited_le_of_prefix (l : List (String × String)) (st st' : ResolveState)
    (h : st.visited <+: st'.visited) : unvisited l st' ≤ unvisited l st := by
  unfold unvisited
  apply List.Sublist.length_le
  apply List.monotone_filter_right
  intro a ha
  simp only [decide_eq_true_eq] at ha ⊢
  intro hav
  exact ha (h.subset hav)

/-- The visit log only ever grows (by appending at the end). -/
theorem resolveToks_visited_pfx (l : List (String × String))
    (nested : String → ResolveState → ResolveState)
    (hn : ∀ e st, st.visited <+: (nested e st).visited) :
    ∀ (toks : List String) (st : ResolveState),
      st.visited <+: (resolveToks l nested toks st).visited := by
  intro toks
  induction toks with
  | nil => intro st; exact List.prefix_refl _
  | cons tok rest ih =>
      intro st
      cases hdl : dictLookup l tok with
      | none =>
          simp only [resolveToks, hdl]
          exact ih st
      | some refExpr =>
          by_cases hv : tok ∈ st.visited
          · simp only [resolveToks, hdl, if_pos hv]
            exact ih st
          · simp only [resolveToks, hdl, if_neg hv]
            refine List.IsPrefix.trans ?_ (ih _)
            refine List.IsPrefix.trans ?_ (hn refExpr _)
            exact ⟨[tok], rfl⟩

/-- `resolveRefs` only ever extends the visit log. -/
theorem resolveRefs_visited_pfx (l : List (String × String)) :
    ∀ (f : Nat) (e : String) (st : ResolveState),
      st.visited <+: (resolveRefs l f e st).visited := by
  intro f
  induction f with
  | zero => intro e st; exact List.prefix_refl _
  | succ f ih =>
      intro e st
      simp only [resolveRefs]
      exact resolveToks_visited_pfx l _ (fun e st => ih e st) _ st

/-- An unvisited known name keeps the unvisited count positive. -/
theorem unvisited_pos {l : List (String × String)} {st : ResolveState} {tok : String}
    (htok : tok ∈ lookupNames l) (hnv : tok ∉ st.visited) : 0 < unvisited l st := by
  unfold unvisited
  apply List.length_pos_of_mem (a := tok)
  rw [List.mem_filter]
  exact ⟨htok, by simpa using hnv⟩

/-- The visit log stays duplicate-free through one token pass. -/
theorem resolveToks_visited_nodup (l : List (String × String))
    (nested : String → ResolveState → ResolveState)
    (hn : ∀ e st, st.visited.Nodup → (nested e st).visited.Nodup) :
    ∀ (toks : List String) (st : ResolveState),
      st.visited.Nodup → (resolveToks l nested toks st).visited.Nodup := by
  intro toks
  induction toks with
  | nil => intro st h; exact h
  | cons tok rest ih =>
      intro st hnd
      cases hdl : dictLookup l tok with
      | none =>
          simp only [resolveToks, hdl]
          exact ih st hnd
      | some refExpr =>
          by_cases hv : tok ∈ st.visited
          · simp only [resolveToks, hdl, if_pos hv]
            exact ih st hnd
          · simp only [resolveToks, hdl, if_neg hv]
            refine ih _ (hn refExpr _ ?_)
            simp [List.nodup_append, hnd, hv]

/-- The visit log stays duplicate-free through the whole resolution:
each measure is visited at most once. -/
theorem resolveRefs_visited_nodup (l : List (String × String)) :
    ∀ (f : Nat) (e : String) (st : ResolveState),
      st.visited.Nodup → (resolveRefs l f e st).visited.Nodup := by
  intro f
  induction f with
  | zero => intro e st h; exact h
  | succ f ih =>
      intro e st hnd
      simp only [resolveRefs]
      exact resolveToks_visited_nodup l _ (fun e st h => ih e st h) _ st hnd

/-- The token pass is insensitive to the fuel of the nested resolution
as soon as the fuel covers the number of unvisited known names. -/
theorem resolveToks_fuel_eq (l : List (String × String)) :
    ∀ (u : Nat) (toks : List String) (st : ResolveState) (f₁ f₂ : Nat),
      unvisited l st ≤ u → u ≤ f₁ → u ≤ f₂ →
      resolveToks l (resolveRefs l f₁) toks st = resolveToks l (resolveRefs l f₂) toks st := by
  intro u
  induction u with
  | zero =>
      intro toks
      induction toks with
      | nil => intros; rfl
      | cons tok rest ih =>
          intro st f₁ f₂ hu h1 h2
          cases hdl : dictLookup l tok with
          | none =>
              simp only [resolveToks, hdl]
              exact ih st f₁ f₂ hu h1 h2
          | some refExpr =>
              by_cases hv : tok ∈ st.visited
              · simp only [resolveToks, hdl, if_pos hv]
                exact ih st f₁ f₂ hu h1 h2
              · have hpos := unvisited_pos (dictLookup_mem_names hdl) hv
                omega
  | succ u ihu =>
      intro toks
      induction toks with
      | nil => intros; rfl
      | cons tok rest ih =>
          intro st f₁ f₂ hu h1 h2
          cases hdl : dictLookup l tok with
          | none =>
              simp only [resolveToks, hdl]
              exact ih st f₁ f₂ hu h1 h2
          | some refExpr =>
              by_cases hv : tok ∈ st.visited
              · simp only [resolveToks, hdl, if_pos hv]
                exact ih st f₁ f₂ hu h1 h2
              · simp only [resolveToks, hdl, if_neg hv]
                cases f₁ with
                | zero => exact absurd h1 (by omega)
                | succ g₁ =>
                    cases f₂ with
                    | zero => exact absurd h2 (by omega)
                    | succ g₂ =>
                        have hst1 : unvisited l
                            ⟨unionInto st.tables (extract_involved_tables refExpr),
                             unionInto st.cols (extract_involved_columns refExpr),
                             st.visited ++ [tok]⟩ < unvisited l st :=
                          unvisited_append_lt l st.visited tok
                            (dictLookup_mem_names hdl) hv
                        have hrr : resolveRefs l (g₁ + 1) refExpr
                            ⟨unionInto st.tables (extract_involved_tables refExpr),
                             unionInto st.cols (extract_involved_columns refExpr),
                             st.visited ++ [tok]⟩ = resolveRefs l (g₂ + 1) refExpr
                            ⟨unionInto st.tables (extract_involved_tables refExpr),
                             unionInto st.cols (extract_involved_columns refExpr),
                             st.visited ++ [tok]⟩ := by
                          simp only [resolveRefs]
                          exact ihu (measureRefTokens refExpr) _ g₁ g₂ (by omega)
                            (by omega) (by omega)
                        rw [hrr]
                        refine ih _ (g₁ + 1) (g₂ + 1) ?_ h1 h2
                        calc unvisited l (resolveRefs l (g₂ + 1) refExpr _) ≤ _ :=
                              unvisited_le_of_prefix l _ _
                                (resolveRefs_visited_pfx l (g₂ + 1) refExpr _)
                          _ ≤ u + 1 := by omega

/-- The resolution is insensitive to the fuel as soon as it exceeds the
number of unvisited known names. -/
theorem resolveRefs_fuel_eq (l : List (String × String)) (e : String) (st : ResolveState)
    (f₁ f₂ : Nat) (h₁ : unvisited l st < f₁) (h₂ : unvisited l st < f₂) :
    resolveRefs l f₁ e st = resolveRefs l f₂ e st := by
  cases f₁ with
  | zero => exact absurd h₁ (by omega)
  | succ g₁ =>
      cases f₂ with
      | zero => exact absurd h₂ (by omega)
      | succ g₂ =>
          simp only [resolveRefs]
          exact resolveToks_fuel_eq l (unvisited l st) (measureRefTokens e) st g₁ g₂
            le_rfl (by omega) (by omega)

/-- The unvisited count never exceeds the size of the lookup. -/
theorem unvisited_le_length (l : List (String × String)) (st : ResolveState) :
    unvisited l st ≤ l.length := by
  unfold unvisited lookupNames
  calc ((l.map Prod.fst).dedup.filter (fun n => n ∉ st.visited)).length
      ≤ (l.map Prod.fst).dedup.length := List.length_filter_le _ _
    _ ≤ (l.map Prod.fst).length := List.Sublist.length_le (List.dedup_sublist _)
    _ = l.length := List.length_map _ _

/-- C5: resolving a measure's involved set terminates and visits each
referenced measure at most once.  Formally: the fuelled embedding of
the recursive closure gives the same result for every fuel exceeding
the number of unvisited known measure names (so the unbounded Python
recursion reaches a fixed result — the visited set grows monotonically
within the finite measure universe); the visit log never repeats a
measure; and the pipeline's fuel `lookup.length + 1` already computes
that limit value from the empty visited set. -/
theorem c5_resolution_terminates :
    (∀ (lookup : List (String × String)) (e : String) (st : ResolveState) (f₁ f₂ : Nat),
      unvisited lookup st < f₁ → unvisited lookup st < f₂ →
      resolveRefs lookup f₁ e st = resolveRefs lookup f₂ e st) ∧
    (∀ (lookup : List (String × String)) (f : Nat) (e : String) (st : ResolveState),
      st.visited.Nodup → (resolveRefs lookup f e st).visited.Nodup) ∧
    (∀ (lookup : List (String × String)) (e : String) (tb cb : List String) (f : Nat),
      lookup.length < f →
      resolveRefs lookup (lookup.length + 1) e ⟨tb, cb, []⟩ =
        resolveRefs lookup f e ⟨tb, cb, []⟩) := by
  refine ⟨resolveRefs_fuel_eq, resolveRefs_visited_nodup, ?_⟩
  intro lookup e tb cb f hf
  exact resolveRefs_fuel_eq lookup e ⟨tb, cb, []⟩ (lookup.length + 1) f
    (Nat.lt_succ_of_le (unvisited_le_length lookup ⟨tb, cb, []⟩))
    (Nat.lt_of_le_of_lt (unvisited_le_length lookup ⟨tb, cb, []⟩) hf)

/-- C5 witness: the mutually-referential pair `A = [B]`, `B = [A]`.
Resolving `A`'s expression gives the same state at fuel 3 and fuel 5,
and its visit log is `["B", "A"]` — each measure visited exactly once,
no duplication. -/
theorem c5_resolution_terminates_witness :
    resolveRefs [("A", "[B]"), ("B", "[A]")] 3 "[B]" ⟨[], [], []⟩ =
      resolveRefs [("A", "[B]"), ("B", "[A]")] 5 "[B]" ⟨[], [], []⟩ ∧
    (resolveRefs [("A", "[B]"), ("B", "[A]")] 3 "[B]" ⟨[], [], []⟩).visited.Nodup ∧
    (resolveRefs [("A", "[B]"), ("B", "[A]")] 3 "[B]" ⟨[], [], []⟩).visited = ["B", "A"] :=
  ⟨c5_resolution_terminates.1 [("A", "[B]"), ("B", "[A]")] "[B]" ⟨[], [], []⟩ 3 5
      (by decide) (by decide),
    c5_resolution_terminates.2.1 [("A", "[B]"), ("B", "[A]")] 3 "[B]" ⟨[], [], []⟩
      List.nodup_nil,
    rfl⟩

/-!  ## C3 — involved tables/columns of a measure -/

/-- Two measures for the transitive-reference counterexample:
`A = [B]` and `B = SUM('T'[C])`. -/
def preA : MeasurePre := { name := "A", expr := "[B]", fmt := "", folder := "", table := "T1" }

def preB : MeasurePre :=
  { name := "B", expr := "SUM('T'[C])", fmt := "", folder := "", table := "T1" }

/-- C3 counterexample: measure `A` references `B`, whose expression
touches column `C` of table `T`.  The transitive union does contain the
pair — the resolution state carries table `T` and column `C`, and `T`
is rendered in involvedTables — yet `A`'s rendered involvedColumns is
empty, because column rendering filters by qualification in the
top-level expression `[B]` only. -/
theorem c3_counterexample :
    measureRecFor [] [] (measureExprLookup [preA, preB]) preA =
      { name := "A", expr := "[B]", fmt := "", folder := "",
        involvedTables := "T (源表: DAX创建)", involvedColumns := "", refs := "" } ∧
    (resolveRefs (measureExprLookup [preA, preB]) 3 "[B]" ⟨[], [], []⟩) =
      { tables := ["T"], cols := ["C"], visited := ["B"] } := ⟨rfl, rfl⟩

/-- Reachability along measure-reference edges, starting from the
bracketed tokens of a root expression: exactly the measures the
recursive closure can reach. -/
inductive ReachableFrom (lookup : List (String × String)) (e0 : String) : String → Prop where
  | direct (m : String) (ex : String) (hm : m ∈ measureRefTokens e0)
      (hl : dictLookup lookup m = some ex) : ReachableFrom lookup e0 m
  | step (m' ex' m ex : String) (hr : ReachableFrom lookup e0 m')
      (hl' : dictLookup lookup m' = some ex') (hm : m ∈ measureRefTokens ex')
      (hl : dictLookup lookup m = some ex) : ReachableFrom lookup e0 m

/-- An expression all of whose known tokens satisfy `P`. -/
def ExprOK (lookup : List (String × String)) (P : String → Prop) (e : String) : Prop :=
  ∀ m ex, m ∈ measureRefTokens e → dictLookup lookup m = some ex → P m

/-- Soundness of the visit log through one token pass: every newly
visited measure satisfies `P`, for any `P` that covers the tokens at
hand and is closed under reference edges. -/
theorem resolveToks_visited_sound (l : List (String × String)) (P : String → Prop)
    (HC : ∀ m ex, P m → dictLookup l m = some ex → ExprOK l P ex)
    (nested : String → ResolveState → ResolveState)
    (hnested : ∀ e st, ExprOK l P e →
      ∀ m ∈ (nested e st).visited, m ∈ st.visited ∨ P m) :
    ∀ (toks : List String) (st : ResolveState),
      (∀ tok ∈ toks, ∀ ex, dictLookup l tok = some ex → P tok) →
      ∀ m ∈ (resolveToks l nested toks st).visited, m ∈ st.visited ∨ P m := by
  intro toks
  induction toks with
  | nil => intro st _ m hm; exact Or.inl hm
  | cons tok rest ih =>
      intro st htoks m hm
      have htok1 : ∀ ex, dictLookup l tok = some ex → P tok :=
        fun ex hex => htoks tok (List.mem_cons_self tok rest) ex hex
      have hrest : ∀ t ∈ rest, ∀ ex, dictLookup l t = some ex → P t :=
        fun t ht ex hex => htoks t (List.mem_cons_of_mem tok ht) ex hex
      cases hdl : dictLookup l tok with
      | none =>
          simp only [resolveToks, hdl] at hm
          exact ih st hrest m hm
      | some refExpr =>
          by_cases hv : tok ∈ st.visited
          · simp only [resolveToks, hdl, if_pos hv] at hm
            exact ih st hrest m hm
          · simp only [resolveToks, hdl, if_neg hv] at hm
            have hPtok : P tok := htok1 refExpr hdl
            have hok : ExprOK l P refExpr := HC tok refExpr hPtok hdl
            rcases ih _ hrest m hm with hm2 | hP
            · rcases hnested refExpr _ hok m hm2 with hm1 | hP
              · rcases List.mem_append.mp hm1 with hm0 | hm0
                · exact Or.inl hm0
                · rw [List.mem_singleton] at hm0
                  rw [hm0]
                  exact Or.inr hPtok
              · exact Or.inr hP
            · exact Or.inr hP

/-- Soundness of the visit log for the whole resolution. -/
theorem resolveRefs_visited_sound (l : List (String × String)) (P : String → Prop)
    (HC : ∀ m ex, P m → dictLookup l m = some ex → ExprOK l P ex) :
    ∀ (f : Nat) (e : String) (st : ResolveState), ExprOK l P e →
      ∀ m ∈ (resolveRefs l f e st).visited, m ∈ st.visited ∨ P m := by
  intro f
  induction f with
  | zero => intro e st _ m hm; exact Or.inl hm
  | succ f ih =>
      intro e st hok m hm
      simp only [resolveRefs] at hm
      exact resolveToks_visited_sound l P HC (resolveRefs l f)
        (fun e2 st2 hok2 m2 hm2 => ih e2 st2 hok2 m2 hm2)
        (measureRefTokens e) st
        (fun t ht ex hex => hok t ex ht hex) m hm

/-- Completeness of the visit log through one token pass with adequate
fuel: every known token of the pass ends up visited, and the final
visit log is closed — the known tokens of every newly visited measure's
expression are themselves visited. -/
theorem resolveToks_closure (l : List (String × String)) :
    ∀ (u : Nat) (toks : List String) (st : ResolveState) (f : Nat),
      unvisited l st ≤ u → u ≤ f →
      (∀ tok ∈ toks, ∀ ex, dictLookup l tok = some ex →
        tok ∈ (resolveToks l (resolveRefs l f) toks st).visited) ∧
      (∀ m ∈ (resolveToks l (resolveRefs l f) toks st).visited, m ∉ st.visited →
        ∀ ex, dictLookup l m = some ex →
        ∀ tok ∈ measureRefTokens ex, ∀ ex2, dictLookup l tok = some ex2 →
          tok ∈ (resolveToks l (resolveRefs l f) toks st).visited) := by
  intro u
  induction u with
  | zero =>
      intro toks
      induction toks with
      | nil =>
          intro st f hu _
          exact ⟨fun t ht => absurd ht (List.not_mem_nil t),
            fun m hm hmn => absurd hm (by simpa [resolveToks] using hmn)⟩
      | cons tok rest ih =>
          intro st f hu hf
          cases hdl : dictLookup l tok with
          | none =>
              have hunf : resolveToks l (resolveRefs l f) (tok :: rest) st =
                  resolveToks l (resolveRefs l f) rest st := by
                simp only [resolveToks, hdl]
              rw [hunf]
              refine ⟨?_, (ih st f hu hf).2⟩
              intro t ht ex hex
              rcases List.mem_cons.mp ht with rfl | htr
              · rw [hdl] at hex; cases hex
              · exact (ih st f hu hf).1 t htr ex hex
          | some refExpr =>
              by_cases hv : tok ∈ st.visited
              · have hunf : resolveToks l (resolveRefs l f) (tok :: rest) st =
                    resolveToks l (resolveRefs l f) rest st := by
                  simp only [resolveToks, hdl, if_pos hv]
                rw [hunf]
                refine ⟨?_, (ih st f hu hf).2⟩
                intro t ht ex hex
                rcases List.mem_cons.mp ht with rfl | htr
                · exact (resolveToks_visited_pfx l _
                    (resolveRefs_visited_pfx l f) rest st).subset hv
                · exact (ih st f hu hf).1 t htr ex hex
              · have hpos := unvisited_pos (dictLookup_mem_names hdl) hv
                omega
  | succ u ihu =>
      intro toks
      induction toks with
      | nil =>
          intro st f hu _
          exact ⟨fun t ht => absurd ht (List.not_mem_nil t),
            fun m hm hmn => absurd hm (by simpa [resolveToks] using hmn)⟩
      | cons tok rest ih =>
          intro st f hu hf
          cases hdl : dictLookup l tok with
          | none =>
              have hunf : resolveToks l (resolveRefs l f) (tok :: rest) st =
                  resolveToks l (resolveRefs l f) rest st := by
                simp only [resolveToks, hdl]
              rw [hunf]
              refine ⟨?_, (ih st f hu hf).2⟩
              intro t ht ex hex
              rcases List.mem_cons.mp ht with rfl | htr
              · rw [hdl] at hex; cases hex
              · exact (ih st f hu hf).1 t htr ex hex
          | some refExpr =>
              by_cases hv : tok ∈ st.visited
              · have hunf : resolveToks l (resolveRefs l f) (tok :: rest) st =
                    resolveToks l (resolveRefs l f) rest st := by
                  simp only [resolveToks, hdl, if_pos hv]
                rw [hunf]
                refine ⟨?_, (ih st f hu hf).2⟩
                intro t ht ex hex
                rcases List.mem_cons.mp ht with rfl | htr
                · exact (resolveToks_visited_pfx l _
                    (resolveRefs_visited_pfx l f) rest st).subset hv
                · exact (ih st f hu hf).1 t htr ex hex
              · cases f with
                | zero => omega
                | succ g =>
                    have hunf : resolveToks l (resolveRefs l (g + 1)) (tok :: rest) st =
                        resolveToks l (resolveRefs l (g + 1)) rest
                          (resolveRefs l (g + 1) refExpr
                            ⟨unionInto st.tables (extract_involved_tables refExpr),
                             unionInto st.cols (extract_involved_columns refExpr),
                             st.visited ++ [tok]⟩) := by
                      simp only [resolveToks, hdl, if_neg hv]
                    have hst2eq : resolveRefs l (g + 1) refExpr
                        ⟨unionInto st.tables (extract_involved_tables refExpr),
                         unionInto st.cols (extract_involved_columns refExpr),
                         st.visited ++ [tok]⟩ =
                        resolveToks l (resolveRefs l g) (measureRefTokens refExpr)
                          ⟨unionInto st.tables (extract_involved_tables refExpr),
                           unionInto st.cols (extract_involved_columns refExpr),
                           st.visited ++ [tok]⟩ := by
                      simp only [resolveRefs]
                    have hlt : unvisited l
                        ⟨unionInto st.tables (extract_involved_tables refExpr),
                         unionInto st.cols (extract_involved_columns refExpr),
                         st.visited ++ [tok]⟩ < unvisited l st :=
                      unvisited_append_lt l st.visited tok (dictLookup_mem_names hdl) hv
                    have hAB := ihu (measureRefTokens refExpr)
                      ⟨unionInto st.tables (extract_involved_tables refExpr),
                       unionInto st.cols (extract_involved_columns refExpr),
                       st.visited ++ [tok]⟩ g (by omega) (by omega)
                    rw [← hst2eq] at hAB
                    have hst2pre : (st.visited ++ [tok]) <+:
                        (resolveRefs l (g + 1) refExpr
                          ⟨unionInto st.tables (extract_involved_tables refExpr),
                           unionInto st.cols (extract_involved_columns refExpr),
                           st.visited ++ [tok]⟩).visited :=
                      resolveRefs_visited_pfx l (g + 1) refExpr
                        ⟨unionInto st.tables (extract_involved_tables refExpr),
                         unionInto st.cols (extract_involved_columns refExpr),
                         st.visited ++ [tok]⟩
                    have hule : unvisited l (resolveRefs l (g + 1) refExpr
                        ⟨unionInto st.tables (extract_involved_tables refExpr),
                         unionInto st.cols (extract_involved_columns refExpr),
                         st.visited ++ [tok]⟩) ≤ u + 1 := by
                      have := unvisited_le_of_prefix l
                        ⟨unionInto st.tables (extract_involved_tables refExpr),
                         unionInto st.cols (extract_involved_columns refExpr),
                         st.visited ++ [tok]⟩ _ hst2pre
                      omega
                    have hCD := ih (resolveRefs l (g + 1) refExpr
                        ⟨unionInto st.tables (extract_involved_tables refExpr),
                         unionInto st.cols (extract_involved_columns refExpr),
                         st.visited ++ [tok]⟩) (g + 1) hule hf
                    have hfinpre : (resolveRefs l (g + 1) refExpr
                        ⟨unionInto st.tables (extract_involved_tables refExpr),
                         unionInto st.cols (extract_involved_columns refExpr),
                         st.visited ++ [tok]⟩).visited <+:
                        (resolveToks l (resolveRefs l (g + 1)) rest
                          (resolveRefs l (g + 1) refExpr
                            ⟨unionInto st.tables (extract_involved_tables refExpr),
                             unionInto st.cols (extract_involved_columns refExpr),
                             st.visited ++ [tok]⟩)).visited :=
                      resolveToks_visited_pfx l _ (resolveRefs_visited_pfx l (g + 1))
                        rest _
                    rw [hunf]
                    constructor
                    · intro t ht ex hex
                      rcases List.mem_cons.mp ht with rfl | htr
                      · refine hfinpre.subset (hst2pre.subset ?_)
                        exact List.mem_append.mpr (Or.inr (List.mem_singleton.mpr rfl))
                      · exact hCD.1 t htr ex hex
                    · intro m hmfin hmnst ex hex t ht ex2 hex2
                      by_cases h2 : m ∈ (resolveRefs l (g + 1) refExpr
                          ⟨unionInto st.tables (extract_involved_tables refExpr),
                           unionInto st.cols (extract_involved_columns refExpr),
                           st.visited ++ [tok]⟩).visited
                      · by_cases h1 : m ∈ st.visited ++ [tok]
                        · have hmtok : m = tok := by
                            rcases List.mem_append.mp h1 with h0 | h0
                            · exact absurd h0 hmnst
                            · exact List.mem_singleton.mp h0
                          subst hmtok
                          have hexeq : ex = refExpr := by
                            rw [hdl] at hex
                            exact (Option.some.inj hex).symm
                          subst hexeq
                          exact hfinpre.subset (hAB.1 t ht ex2 hex2)
                        · exact hfinpre.subset (hAB.2 m h2 h1 ex hex t ht ex2 hex2)
                      · exact hCD.2 m hmfin h2 ex hex t ht ex2 hex2

/-- Completeness of the whole resolution with adequate fuel: the known
tokens of the root expression are visited, and the visit log is closed
under reference edges out of newly visited measures. -/
theorem resolveRefs_closure (l : List (String × String)) (e : String) (st : ResolveState)
    (f : Nat) (hf : unvisited l st < f) :
    (∀ tok ∈ measureRefTokens e, ∀ ex, dictLookup l tok = some ex →
      tok ∈ (resolveRefs l f e st).visited) ∧
    (∀ m ∈ (resolveRefs l f e st).visited, m ∉ st.visited →
      ∀ ex, dictLookup l m = some ex →
      ∀ tok ∈ measureRefTokens ex, ∀ ex2, dictLookup l tok = some ex2 →
        tok ∈ (resolveRefs l f e st).visited) := by
  cases f with
  | zero => omega
  | succ g =>
      simp only [resolveRefs]
      exact resolveToks_closure l (unvisited l st) (measureRefTokens e) st g le_rfl
        (by omega)

/-- With the pipeline's fuel, every measure reachable from the root
expression is visited. -/
theorem reachable_mem_visited (l : List (String × String)) (e0 : String)
    (tb cb : List String) (f : Nat) (hf : l.length < f) :
    ∀ m, ReachableFrom l e0 m → m ∈ (resolveRefs l f e0 ⟨tb, cb, []⟩).visited := by
  have hcl := resolveRefs_closure l e0 ⟨tb, cb, []⟩ f
    (Nat.lt_of_le_of_lt (unvisited_le_length l ⟨tb, cb, []⟩) hf)
  intro m hr
  induction hr with
  | direct m ex hm hl => exact hcl.1 m hm ex hl
  | step m' ex' m ex hr hl' hm hl ih =>
      exact hcl.2 m' ih (List.not_mem_nil m') ex' hl' m hm ex hl

/-- Every measure visited from an empty log is reachable from the root
expression. -/
theorem visited_mem_reachable (l : List (String × String)) (e0 : String)
    (tb cb : List String) (f : Nat) :
    ∀ m ∈ (resolveRefs l f e0 ⟨tb, cb, []⟩).visited, ReachableFrom l e0 m := by
  intro m hm
  have := resolveRefs_visited_sound l (ReachableFrom l e0)
    (fun m2 ex h2 hl t ex2 ht hl2 => ReachableFrom.step m2 ex t ex2 h2 hl ht hl2)
    f e0 ⟨tb, cb, []⟩
    (fun t ex ht hl => ReachableFrom.direct t ex ht hl) m hm
  rcases this with h | h
  · exact absurd h (List.not_mem_nil m)
  · exact h

/-- Membership in a set insertion. -/
theorem mem_insertNew (acc : List String) (n x : String) :
    x ∈ insertNew acc n ↔ x ∈ acc ∨ x = n := by
  unfold insertNew
  by_cases h : n ∈ acc
  · rw [if_pos h]
    constructor
    · exact Or.inl
    · rintro (hx | rfl)
      · exact hx
      · exact h
  · rw [if_neg h]
    simp [List.mem_append, List.mem_singleton]

/-- Membership in a set union. -/
theorem mem_unionInto (acc new : List String) (x : String) :
    x ∈ unionInto acc new ↔ x ∈ acc ∨ x ∈ new := by
  induction new generalizing acc with
  | nil => simp [unionInto]
  | cons n rest ih =>
      show x ∈ unionInto (insertNew acc n) rest ↔ _
      rw [ih, mem_insertNew]
      simp only [List.mem_cons]
      tauto

/-- `x` was contributed by a measure visited in `V` but not yet in `W`,
through the extractor `dir` applied to that measure's expression. -/
def gainedFrom (l : List (String × String)) (dir : String → List String)
    (V W : List String) (x : String) : Prop :=
  ∃ m, m ∈ V ∧ m ∉ W ∧ ∃ ex, dictLookup l m = some ex ∧ x ∈ dir ex

/-- Composing the gained-set characterisation across the visit of one
measure. -/
theorem gained_step (l : List (String × String)) (dir : String → List String)
    (tok refExpr : String) (Vst V2 Vf Fst F2 Ff : List String)
    (hdl : dictLookup l tok = some refExpr) (hv : tok ∉ Vst)
    (hp1 : (Vst ++ [tok]) <+: V2) (hp2 : V2 <+: Vf)
    (hI2 : ∀ x, x ∈ F2 ↔ x ∈ unionInto Fst (dir refExpr) ∨
      gainedFrom l dir V2 (Vst ++ [tok]) x)
    (hI1 : ∀ x, x ∈ Ff ↔ x ∈ F2 ∨ gainedFrom l dir Vf V2 x) :
    ∀ x, x ∈ Ff ↔ x ∈ Fst ∨ gainedFrom l dir Vf Vst x := by
  intro x
  rw [hI1, hI2, mem_unionInto]
  constructor
  · rintro (((hx | hxD) | ⟨m, hmV2, hmnot1, ex, hlm, hxex⟩) |
      ⟨m, hmVf, hmnot2, ex, hlm, hxex⟩)
    · exact Or.inl hx
    · refine Or.inr ⟨tok, hp2.subset (hp1.subset ?_), hv, refExpr, hdl, hxD⟩
      exact List.mem_append.mpr (Or.inr (List.mem_singleton.mpr rfl))
    · exact Or.inr ⟨m, hp2.subset hmV2,
        fun hmst => hmnot1 (List.mem_append_left _ hmst), ex, hlm, hxex⟩
    · exact Or.inr ⟨m, hmVf,
        fun hmst => hmnot2 (hp1.subset (List.mem_append_left _ hmst)), ex, hlm, hxex⟩
  · rintro (hx | ⟨m, hmVf, hmnst, ex, hlm, hxex⟩)
    · exact Or.inl (Or.inl (Or.inl hx))
    · by_cases h2 : m ∈ V2
      · by_cases h1 : m ∈ Vst ++ [tok]
        · have hmtok : m = tok := by
            rcases List.mem_append.mp h1 with h0 | h0
            · exact absurd h0 hmnst
            · exact List.mem_singleton.mp h0
          subst hmtok
          have hexeq : ex = refExpr := by
            rw [hdl] at hlm
            exact (Option.some.inj hlm).symm
          subst hexeq
          exact Or.inl (Or.inl (Or.inr hxex))
        · exact Or.inl (Or.inr ⟨m, h2, h1, ex, hlm, hxex⟩)
      · exact Or.inr ⟨m, hmVf, h2, ex, hlm, hxex⟩

/-- The tables and columns accumulated by one token pass are exactly
the starting sets plus the direct sets of the newly visited measures. -/
theorem resolveToks_sets (l : List (String × String))
    (nested : String → ResolveState → ResolveState)
    (hpre : ∀ e st, st.visited <+: (nested e st).visited)
    (hn : ∀ e st,
      (∀ x, x ∈ (nested e st).tables ↔ x ∈ st.tables ∨
        gainedFrom l extract_involved_tables (nested e st).visited st.visited x) ∧
      (∀ x, x ∈ (nested e st).cols ↔ x ∈ st.cols ∨
        gainedFrom l extract_involved_columns (nested e st).visited st.visited x)) :
    ∀ (toks : List String) (st : ResolveState),
      (∀ x, x ∈ (resolveToks l nested toks st).tables ↔ x ∈ st.tables ∨
        gainedFrom l extract_involved_tables
          (resolveToks l nested toks st).visited st.visited x) ∧
      (∀ x, x ∈ (resolveToks l nested toks st).cols ↔ x ∈ st.cols ∨
        gainedFrom l extract_involved_columns
          (resolveToks l nested toks st).visited st.visited x) := by
  intro toks
  induction toks with
  | nil =>
      intro st
      constructor <;>
        · intro x
          constructor
          · exact Or.inl
          · rintro (hx | ⟨m, hm, hnm, _⟩)
            · exact hx
            · exact absurd hm hnm
  | cons tok rest ih =>
      intro st
      cases hdl : dictLookup l tok with
      | none =>
          have hunf : resolveToks l nested (tok :: rest) st =
              resolveToks l nested rest st := by
            simp only [resolveToks, hdl]
          rw [hunf]
          exact ih st
      | some refExpr =>
          by_cases hv : tok ∈ st.visited
          · have hunf : resolveToks l nested (tok :: rest) st =
                resolveToks l nested rest st := by
              simp only [resolveToks, hdl, if_pos hv]
            rw [hunf]
            exact ih st
          · have hunf : resolveToks l nested (tok :: rest) st =
                resolveToks l nested rest (nested refExpr
                  ⟨unionInto st.tables (extract_involved_tables refExpr),
                   unionInto st.cols (extract_involved_columns refExpr),
                   st.visited ++ [tok]⟩) := by
              simp only [resolveToks, hdl, if_neg hv]
            rw [hunf]
            have hp1 : (st.visited ++ [tok]) <+:
                (nested refExpr
                  ⟨unionInto st.tables (extract_involved_tables refExpr),
                   unionInto st.cols (extract_involved_columns refExpr),
                   st.visited ++ [tok]⟩).visited :=
              hpre refExpr
                ⟨unionInto st.tables (extract_involved_tables refExpr),
                 unionInto st.cols (extract_involved_columns refExpr),
                 st.visited ++ [tok]⟩
            have hp2 : (nested refExpr
                ⟨unionInto st.tables (extract_involved_tables refExpr),
                 unionInto st.cols (extract_involved_columns refExpr),
                 st.visited ++ [tok]⟩).visited <+:
                (resolveToks l nested rest (nested refExpr
                  ⟨unionInto st.tables (extract_involved_tables refExpr),
                   unionInto st.cols (extract_involved_columns refExpr),
                   st.visited ++ [tok]⟩)).visited :=
              resolveToks_visited_pfx l nested hpre rest _
            have hI2 := hn refExpr
              ⟨unionInto st.tables (extract_involved_tables refExpr),
               unionInto st.cols (extract_involved_columns refExpr),
               st.visited ++ [tok]⟩
            have hI1 := ih (nested refExpr
              ⟨unionInto st.tables (extract_involved_tables refExpr),
               unionInto st.cols (extract_involved_columns refExpr),
               st.visited ++ [tok]⟩)
            exact ⟨gained_step l extract_involved_tables tok refExpr st.visited _ _
                st.tables _ _ hdl hv hp1 hp2 hI2.1 hI1.1,
              gained_step l extract_involved_columns tok refExpr st.visited _ _
                st.cols _ _ hdl hv hp1 hp2 hI2.2 hI1.2⟩

/-- The full resolution's tables and columns are exactly the starting
sets plus the direct sets of the visited measures. -/
theorem resolveRefs_sets (l : List (String × String)) :
    ∀ (f : Nat) (e : String) (st : ResolveState),
      (∀ x, x ∈ (resolveRefs l f e st).tables ↔ x ∈ st.tables ∨
        gainedFrom l extract_involved_tables
          (resolveRefs l f e st).visited st.visited x) ∧
      (∀ x, x ∈ (resolveRefs l f e st).cols ↔ x ∈ st.cols ∨
        gainedFrom l extract_involved_columns
          (resolveRefs l f e st).visited st.visited x) := by
  intro f
  induction f with
  | zero =>
      intro e st
      constructor <;>
        · intro x
          constructor
          · exact Or.inl
          · rintro (hx | ⟨m, hm, hnm, _⟩)
            · exact hx
            · exact absurd hm hnm
  | succ f ih =>
      intro e st
      simp only [resolveRefs]
      exact resolveToks_sets l (resolveRefs l f) (resolveRefs_visited_pfx l f)
        (fun e2 st2 => ih e2 st2) (measureRefTokens e) st

/-- The final resolution state of a measure expression under the
pipeline's fuel, as computed inside `measureRecFor`. -/
def finalState (mlook : List (String × String)) (e : String) : ResolveState :=
  resolveRefs mlook (mlook.length + 1) e
    ⟨extract_involved_tables e, extract_involved_columns e, []⟩

/-- C3: the resolved tables (and columns) set of a measure is exactly
the union of its own direct references and the direct references of
every measure reachable along reference edges, and involvedTables
renders that full set — but the rendered involvedColumns keeps only
columns qualified by one of those tables in the TOP-LEVEL expression
itself, so a pair referenced only inside a transitively referenced
measure's expression is absent from the rendering (see
`c3_counterexample`). -/
theorem c3_involved_sets (tlook clook mlook : List (String × String)) (m : MeasurePre) :
    ((measureRecFor tlook clook mlook m).involvedTables =
        String.intercalate "\n"
          (formatTables tlook (finalState mlook m.expr).tables) ∧
      (measureRecFor tlook clook mlook m).involvedColumns =
        String.intercalate "\n"
          (formatColumns clook (finalState mlook m.expr).tables
            (finalState mlook m.expr).cols m.expr)) ∧
    (∀ x, x ∈ (finalState mlook m.expr).tables ↔
      x ∈ extract_involved_tables m.expr ∨
      ∃ m2 ex, ReachableFrom mlook m.expr m2 ∧ dictLookup mlook m2 = some ex ∧
        x ∈ extract_involved_tables ex) ∧
    (∀ x, x ∈ (finalState mlook m.expr).cols ↔
      x ∈ extract_involved_columns m.expr ∨
      ∃ m2 ex, ReachableFrom mlook m.expr m2 ∧ dictLookup mlook m2 = some ex ∧
        x ∈ extract_involved_columns ex) ∧
    (∀ line, line ∈ formatColumns clook (finalState mlook m.expr).tables
        (finalState mlook m.expr).cols m.expr ↔
      ∃ t c, t ∈ (finalState mlook m.expr).tables ∧
        c ∈ (finalState mlook m.expr).cols ∧
        c ∈ reFindAll1 (tableQualRx t) m.expr ∧
        line = c ++ " (源列: " ++ ((dictLookup clook (t ++ "." ++ c)).getD c) ++ ")") := by
  have hsets := resolveRefs_sets mlook (mlook.length + 1) m.expr
    ⟨extract_involved_tables m.expr, extract_involved_columns m.expr, []⟩
  have hreach := reachable_mem_visited mlook m.expr
    (extract_involved_tables m.expr) (extract_involved_columns m.expr)
    (mlook.length + 1) (Nat.lt_succ_self _)
  have hvis := visited_mem_reachable mlook m.expr
    (extract_involved_tables m.expr) (extract_involved_columns m.expr)
    (mlook.length + 1)
  unfold finalState
  refine ⟨⟨rfl, rfl⟩, ?_, ?_, ?_⟩
  · intro x
    rw [hsets.1 x]
    constructor
    · rintro (hx | ⟨m2, hm2, _, ex, hl, hxex⟩)
      · exact Or.inl hx
      · exact Or.inr ⟨m2, ex, hvis m2 hm2, hl, hxex⟩
    · rintro (hx | ⟨m2, ex, hr, hl, hxex⟩)
      · exact Or.inl hx
      · exact Or.inr ⟨m2, hreach m2 hr, List.not_mem_nil m2, ex, hl, hxex⟩
  · intro x
    rw [hsets.2 x]
    constructor
    · rintro (hx | ⟨m2, hm2, _, ex, hl, hxex⟩)
      · exact Or.inl hx
      · exact Or.inr ⟨m2, ex, hvis m2 hm2, hl, hxex⟩
    · rintro (hx | ⟨m2, ex, hr, hl, hxex⟩)
      · exact Or.inl hx
      · exact Or.inr ⟨m2, hreach m2 hr, List.not_mem_nil m2, ex, hl, hxex⟩
  · intro line
    simp only [formatColumns, List.mem_flatMap, List.mem_map, List.mem_filter,
      decide_eq_true_eq]
    constructor
    · rintro ⟨t, ht, c, ⟨hc, hq⟩, rfl⟩
      exact ⟨t, c, ht, hc, hq, rfl⟩
    · rintro ⟨t, c, ht, hc, hq, rfl⟩
      exact ⟨t, ht, c, ⟨hc, hq⟩, rfl⟩
